import Mathlib

/-!
Verification of the CMP connectivity-management API client core
(signature generation, response-envelope normalization, pagination-cursor
codec, and per-endpoint request validation) against its specification.

The TypeScript source is shallowly embedded: JavaScript strings become
Lean `String`s, JSON values become the `Json` inductive below, machine
numbers become `Int`/`Nat`, fallible code returns `Option`/`Except`, and
pure platform primitives (`JSON.stringify`, `JSON.parse`, `btoa`, `atob`,
HMAC-SHA256) are implemented from their platform definitions.

Model restrictions (stated once here): JSON numbers are modelled as
integers (`Int`) because every number the claims touch is integral; the
parser therefore reads only integer literals.  JavaScript strings are
modelled by Lean `String` (sequences of Unicode scalar values), so lone
UTF-16 surrogates are not represented.
-/

namespace CMP

/-! ## Characters and small helpers -/

/-- The four whitespace characters of the JSON grammar (RFC 8259 `ws`):
space, tab, line feed, carriage return. -/
def isJsonWs (c : Char) : Bool :=
  c.toNat = 32 || c.toNat = 9 || c.toNat = 10 || c.toNat = 13

/-- The WhiteSpace and LineTerminator characters recognised by JavaScript
`String.prototype.trim` (ECMA-262 TrimString). -/
def jsWhitespaceChar (c : Char) : Bool :=
  c = ' ' || c = '\t' || c = '\n' || c = '\r' ||
  c.toNat = 0xb || c.toNat = 0xc || c.toNat = 0xa0 || c.toNat = 0xfeff ||
  c.toNat = 0x1680 || (0x2000 ≤ c.toNat && c.toNat ≤ 0x200a) ||
  c.toNat = 0x2028 || c.toNat = 0x2029 || c.toNat = 0x202f ||
  c.toNat = 0x205f || c.toNat = 0x3000

/-- Embedding of JavaScript `String.prototype.trim`. -/
def jsTrim (s : String) : String :=
  ⟨((s.data.dropWhile jsWhitespaceChar).reverse.dropWhile jsWhitespaceChar).reverse⟩

/-- Leading-segment test: the first list starts the second. -/
def segAt : List Char → List Char → Bool
  | [], _ => true
  | _ :: _, [] => false
  | a :: as2, b :: bs => a == b && segAt as2 bs

/-- Substring occurrence of `needle` anywhere inside `hay`, used to state
what a message does or does not carry. -/
def hasSeg (needle hay : List Char) : Bool :=
  (List.range (hay.length + 1)).any (fun i => segAt needle (hay.drop i))

/-- The decimal digit character for `n < 10`. -/
def digitCh (n : Nat) : Char := Char.ofNat (48 + n)

/-- Lowercase hexadecimal digit character for `n < 16`, as produced by
JavaScript `Number.prototype.toString(16)`. -/
def hexCh (n : Nat) : Char := if n < 10 then Char.ofNat (48 + n) else Char.ofNat (87 + n)

/-- Numeric value of a decimal digit character. -/
def digitVal (c : Char) : Nat := c.toNat - 48

/-- Decimal digit test (the regex class `\d`). -/
def isDigitCh (c : Char) : Bool := 48 ≤ c.toNat && c.toNat ≤ 57

/-- Fuelled digit accumulation for `natDigits`; the fuel dominates the
number of digits, so `n + 1` always suffices. -/
def natDigitsAux : Nat → Nat → List Char
  | 0, _ => []
  | fuel + 1, n =>
      if n < 10 then [digitCh n] else natDigitsAux fuel (n / 10) ++ [digitCh (n % 10)]

/-- Decimal digit characters of a natural number, most significant first
(the integer case of JavaScript number-to-string). -/
def natDigits (n : Nat) : List Char := natDigitsAux (n + 1) n

/-- Decimal rendering of an integer, matching JavaScript string coercion of
an integral number. -/
def intChars (n : Int) : List Char :=
  if n < 0 then '-' :: natDigits n.natAbs else natDigits n.natAbs

/-! ## The JSON data model -/

/-- JSON values as JavaScript sees them (numbers restricted to integers,
see the header note).  Objects keep their fields as an ordered association
list, the order and multiplicity being those of the underlying text;
JavaScript property lookup on such a parse result is last-wins, which
`jsGetProp` below implements. -/
inductive Json where
  | null : Json
  | bool (b : Bool) : Json
  | num (n : Int) : Json
  | str (s : String) : Json
  | arr (elems : List Json) : Json
  | obj (fields : List (String × Json)) : Json

mutual

/-- Structural equality test for `Json` (no deriving handler applies to the
nested occurrences of `List`). -/
def Json.beq : Json → Json → Bool
  | .null, .null => true
  | .bool a, .bool b => a == b
  | .num a, .num b => a == b
  | .str a, .str b => a == b
  | .arr a, .arr b => Json.beqList a b
  | .obj a, .obj b => Json.beqFields a b
  | _, _ => false

/-- Elementwise equality of JSON arrays. -/
def Json.beqList : List Json → List Json → Bool
  | [], [] => true
  | x :: xs, y :: ys => Json.beq x y && Json.beqList xs ys
  | _, _ => false

/-- Elementwise equality of JSON object field lists. -/
def Json.beqFields : List (String × Json) → List (String × Json) → Bool
  | [], [] => true
  | (k, v) :: xs, (l, w) :: ys => k == l && Json.beq v w && Json.beqFields xs ys
  | _, _ => false

end

/-! ## JavaScript value semantics on `Json` -/

/-- Property access `v[key]` on a parsed JSON value, JavaScript style:
objects use last-wins lookup (duplicate keys in the text leave the last
binding), arrays and primitives have no string-keyed own properties, so
access yields `undefined` (`none`).  Access on `null` throws and is handled
separately at each use site. -/
def jsGetProp (v : Json) (key : String) : Option Json :=
  match v with
  | .obj fields => (fields.reverse.find? (fun p => p.1 = key)).map (·.2)
  | _ => none

/-- Truthiness of a JSON value under JavaScript boolean coercion:
`null`, `false`, `0` and `""` are falsy, everything else truthy. -/
def jsTruthy : Json → Bool
  | .null => false
  | .bool b => b
  | .num n => n ≠ 0
  | .str s => s ≠ ""
  | .arr _ => true
  | .obj _ => true

/-- The result of `typeof v === "object"` in JavaScript: true for objects,
arrays and `null`, false for primitives. -/
def jsTypeofObject : Json → Bool
  | .null => true
  | .arr _ => true
  | .obj _ => true
  | _ => false

mutual

/-- JavaScript template-literal string coercion of a JSON value
(ECMA-262 ToString): numbers print in decimal, arrays join their
elements' coercions with commas (Array.prototype.toString), plain objects
print `[object Object]`. -/
def jsToString : Json → String
  | .null => "null"
  | .bool b => if b then "true" else "false"
  | .num n => ⟨intChars n⟩
  | .str s => s
  | .arr xs => jsToStringItems xs
  | .obj _ => "[object Object]"

/-- Comma-joined JavaScript coercions of array elements. -/
def jsToStringItems : List Json → String
  | [] => ""
  | [x] => jsToString x
  | x :: y :: ys => jsToString x ++ "," ++ jsToStringItems (y :: ys)

end

/-! ## `JSON.stringify` -/

/-- Escape sequence emitted by `JSON.stringify` for one character of a
string (ECMA-262 QuoteJSONString): quote and backslash get a two-character
escape, the named control characters get theirs, the remaining control
characters get a `\u00xx` escape with lowercase hexadecimal digits, and
every other character passes through unescaped. -/
def escChar (c : Char) : List Char :=
  if c = '"' then ['\\', '"']
  else if c = '\\' then ['\\', '\\']
  else if c.toNat = 8 then ['\\', 'b']
  else if c.toNat = 9 then ['\\', 't']
  else if c.toNat = 10 then ['\\', 'n']
  else if c.toNat = 12 then ['\\', 'f']
  else if c.toNat = 13 then ['\\', 'r']
  else if c.toNat < 32 then
    ['\\', 'u', '0', '0', hexCh (c.toNat / 16), hexCh (c.toNat % 16)]
  else [c]

/-- Characters of the JSON string literal for `s`. -/
def strLitChars (s : String) : List Char :=
  '"' :: (s.data.flatMap escChar ++ ['"'])

mutual

/-- Characters of `JSON.stringify(v)` (no spacing argument, so the output
carries no whitespace). -/
def printJson : Json → List Char
  | .null => ['n', 'u', 'l', 'l']
  | .bool b => if b then ['t', 'r', 'u', 'e'] else ['f', 'a', 'l', 's', 'e']
  | .num n => intChars n
  | .str s => strLitChars s
  | .arr xs => '[' :: (printItems xs ++ [']'])
  | .obj fs => '{' :: (printFields fs ++ ['}'])

/-- Comma-separated serializations of array elements. -/
def printItems : List Json → List Char
  | [] => []
  | [x] => printJson x
  | x :: y :: ys => printJson x ++ ',' :: printItems (y :: ys)

/-- Comma-separated `"key":value` serializations of object fields. -/
def printFields : List (String × Json) → List Char
  | [] => []
  | [(k, v)] => strLitChars k ++ ':' :: printJson v
  | (k, v) :: f :: fs =>
      strLitChars k ++ ':' :: printJson v ++ ',' :: printFields (f :: fs)

end

/-- Embedding of `JSON.stringify` restricted to the modelled values. -/
def jsonStringify (v : Json) : String := ⟨printJson v⟩

/-! ## `JSON.parse` -/

/-- Drop leading JSON whitespace. -/
def skipWs (l : List Char) : List Char := l.dropWhile isJsonWs

/-- Value of a hexadecimal digit character, either case. -/
def hexVal (c : Char) : Option Nat :=
  if 48 ≤ c.toNat ∧ c.toNat ≤ 57 then some (c.toNat - 48)
  else if 97 ≤ c.toNat ∧ c.toNat ≤ 102 then some (c.toNat - 87)
  else if 65 ≤ c.toNat ∧ c.toNat ≤ 70 then some (c.toNat - 55)
  else none

/-- Character reached by a two-character escape sequence in a JSON string. -/
def unescCh (c : Char) : Option Char :=
  if c = '"' then some '"'
  else if c = '\\' then some '\\'
  else if c = '/' then some '/'
  else if c = 'b' then some (Char.ofNat 8)
  else if c = 'f' then some (Char.ofNat 12)
  else if c = 'n' then some '\n'
  else if c = 'r' then some '\r'
  else if c = 't' then some '\t'
  else none

/-- Match an expected literal character sequence at the head of the input. -/
def expectChars : List Char → List Char → Option (List Char)
  | [], input => some input
  | c :: cs, input =>
      match input with
      | d :: rest => if d = c then expectChars cs rest else none
      | [] => none

/-- Body of a JSON string literal after the opening quote: produces the
decoded characters and the input following the closing quote.  Escapes are
decoded per the JSON grammar; `\uXXXX` surrogate pairs combine into one
scalar value, and unescaped control characters are rejected.  The fuel
argument dominates the number of decoded characters. -/
def parseStrBody : Nat → List Char → Option (List Char × List Char)
  | 0, _ => none
  | fuel + 1, input =>
    match input with
    | [] => none
    | c :: rest =>
      if c = '"' then some ([], rest)
      else if c = '\\' then
        match rest with
        | [] => none
        | e :: rest2 =>
          if e = 'u' then
            match rest2 with
            | h1 :: h2 :: h3 :: h4 :: rest3 => do
                let a ← hexVal h1
                let b ← hexVal h2
                let x ← hexVal h3
                let d ← hexVal h4
                let code := a * 4096 + b * 256 + x * 16 + d
                if code < 0xd800 ∨ 0xe000 ≤ code then do
                  let p ← parseStrBody fuel rest3
                  some (Char.ofNat code :: p.1, p.2)
                else if code < 0xdc00 then
                  match rest3 with
                  | '\\' :: 'u' :: g1 :: g2 :: g3 :: g4 :: rest4 => do
                      let a2 ← hexVal g1
                      let b2 ← hexVal g2
                      let x2 ← hexVal g3
                      let d2 ← hexVal g4
                      let lo := a2 * 4096 + b2 * 256 + x2 * 16 + d2
                      if 0xdc00 ≤ lo ∧ lo < 0xe000 then do
                        let p ← parseStrBody fuel rest4
                        some (Char.ofNat (0x10000 + (code - 0xd800) * 1024 +
                          (lo - 0xdc00)) :: p.1, p.2)
                      else none
                  | _ => none
                else none
            | _ => none
          else do
            let u ← unescCh e
            let p ← parseStrBody fuel rest2
            some (u :: p.1, p.2)
      else if c.toNat < 32 then none
      else do
        let p ← parseStrBody fuel rest
        some (c :: p.1, p.2)

/-- Read a maximal run of decimal digits onto an accumulator. -/
def readDigits : List Char → Nat → Nat × List Char
  | [], acc => (acc, [])
  | c :: rest, acc =>
      if isDigitCh c then readDigits rest (acc * 10 + digitVal c) else (acc, c :: rest)

/-- JSON natural-number literal: digits with no superfluous leading zero. -/
def parseNat : List Char → Option (Nat × List Char)
  | [] => none
  | c :: rest =>
      if isDigitCh c then
        if c = '0' then
          match rest with
          | d :: _ => if isDigitCh d then none else some (0, rest)
          | [] => some (0, rest)
        else some (readDigits rest (digitVal c))
      else none

/-- Absence of a leading digit, the boundary condition under which the
number reader stops exactly at a printed number's end. -/
def notDigitStart : List Char → Bool
  | [] => true
  | c :: _ => !isDigitCh c

mutual

/-- Parse one JSON value (integer numbers only, see the header note),
returning it with the unconsumed input. -/
def parseValue : Nat → List Char → Option (Json × List Char)
  | 0, _ => none
  | fuel + 1, input =>
    match skipWs input with
    | [] => none
    | c :: rest =>
      if c = 'n' then (expectChars ['u', 'l', 'l'] rest).map (fun r => (.null, r))
      else if c = 't' then (expectChars ['r', 'u', 'e'] rest).map (fun r => (.bool true, r))
      else if c = 'f' then
        (expectChars ['a', 'l', 's', 'e'] rest).map (fun r => (.bool false, r))
      else if c = '"' then
        (parseStrBody fuel rest).map (fun p => (.str ⟨p.1⟩, p.2))
      else if c = '[' then
        match skipWs rest with
        | [] => (parseItems fuel rest).map (fun p => (.arr p.1, p.2))
        | d :: r2 =>
          if d = ']' then some (.arr [], r2)
          else (parseItems fuel rest).map (fun p => (.arr p.1, p.2))
      else if c = '{' then
        match skipWs rest with
        | [] => (parseFields fuel (skipWs rest)).map (fun p => (.obj p.1, p.2))
        | d :: r2 =>
          if d = '}' then some (.obj [], r2)
          else (parseFields fuel (skipWs rest)).map (fun p => (.obj p.1, p.2))
      else if c = '-' then
        (parseNat rest).map (fun p => (.num (-(p.1 : Int)), p.2))
      else if isDigitCh c then
        (parseNat (c :: rest)).map (fun p => (.num (p.1 : Int), p.2))
      else none

/-- Parse a nonempty comma-separated list of values up to the closing
bracket, which is consumed. -/
def parseItems : Nat → List Char → Option (List Json × List Char)
  | 0, _ => none
  | fuel + 1, input => do
      let (v, r) ← parseValue fuel input
      match skipWs r with
      | [] => none
      | d :: r2 =>
        if d = ',' then (parseItems fuel r2).map (fun p => (v :: p.1, p.2))
        else if d = ']' then some ([v], r2)
        else none

/-- Parse a nonempty comma-separated list of `"key":value` pairs up to the
closing brace, which is consumed.  The input starts at the opening quote
of the first key. -/
def parseFields : Nat → List Char → Option (List (String × Json) × List Char)
  | 0, _ => none
  | fuel + 1, input =>
    match input with
    | c :: rest =>
      if c = '"' then do
        let (k, r) ← parseStrBody fuel rest
        match skipWs r with
        | [] => none
        | d :: r2 =>
          if d = ':' then do
            let (v, r3) ← parseValue fuel r2
            match skipWs r3 with
            | [] => none
            | e :: r4 =>
              if e = ',' then do
                let (fs2, r5) ← parseFields fuel (skipWs r4)
                some ((String.mk k, v) :: fs2, r5)
              else if e = '}' then some ([(String.mk k, v)], r4)
              else none
          else none
      else none
    | [] => none

end

/-- Embedding of `JSON.parse` (restricted to integer numbers): parse one
value and require only whitespace to remain. -/
def jsonParse (s : String) : Option Json :=
  match parseValue (2 * s.length + 2) s.data with
  | some (v, rest) => if skipWs rest = [] then some v else none
  | none => none

mutual

/-- Fuel demanded by `parseValue` to read back a printed value; bounded
by twice the printed length. -/
def jsonWeight : Json → Nat
  | .null => 1
  | .bool _ => 1
  | .num _ => 1
  | .str s => s.length + 2
  | .arr xs => 1 + jsonWeightItems xs
  | .obj fs => 1 + jsonWeightFields fs

/-- Fuel demanded by `parseItems` for an element list. -/
def jsonWeightItems : List Json → Nat
  | [] => 0
  | x :: xs => 1 + jsonWeight x + jsonWeightItems xs

/-- Fuel demanded by `parseFields` for a field list. -/
def jsonWeightFields : List (String × Json) → Nat
  | [] => 0
  | (k, v) :: fs => 2 + k.length + jsonWeight v + jsonWeightFields fs

end

/-! ## Base64: `btoa` and `atob` -/

/-- Character of the standard base64 alphabet for a 6-bit value. -/
def b64Ch (n : Nat) : Char :=
  if n < 26 then Char.ofNat (65 + n)
  else if n < 52 then Char.ofNat (71 + n)
  else if n < 62 then Char.ofNat (n - 4)
  else if n = 62 then '+'
  else '/'

/-- Six-bit value of a base64 alphabet character. -/
def b64Val (c : Char) : Option Nat :=
  if 65 ≤ c.toNat ∧ c.toNat ≤ 90 then some (c.toNat - 65)
  else if 97 ≤ c.toNat ∧ c.toNat ≤ 122 then some (c.toNat - 71)
  else if 48 ≤ c.toNat ∧ c.toNat ≤ 57 then some (c.toNat + 4)
  else if c = '+' then some 62
  else if c = '/' then some 63
  else none

/-- Base64 encoding of a byte sequence, three bytes to four characters,
with `=` padding. -/
def b64EncodeBytes : List Nat → List Char
  | [] => []
  | [a] => [b64Ch (a / 4), b64Ch (a % 4 * 16), '=', '=']
  | [a, b] => [b64Ch (a / 4), b64Ch (a % 4 * 16 + b / 16), b64Ch (b % 16 * 4), '=']
  | a :: b :: c :: rest =>
      b64Ch (a / 4) :: b64Ch (a % 4 * 16 + b / 16) :: b64Ch (b % 16 * 4 + c / 64) ::
        b64Ch (c % 64) :: b64EncodeBytes rest

/-- Embedding of `WindowOrWorkerGlobalScope.btoa`: defined only on strings
whose code points all lie below 256 (otherwise the platform throws
`InvalidCharacterError`), and then the base64 encoding of those code
points taken as bytes. -/
def btoa (s : String) : Option String :=
  if s.data.all (fun c => c.toNat ≤ 255) then
    some ⟨b64EncodeBytes (s.data.map Char.toNat)⟩
  else none

/-- ASCII whitespace as stripped by forgiving-base64 decoding. -/
def asciiWs (c : Char) : Bool :=
  c = ' ' || c = '\t' || c = '\n' || c = '\r' || c.toNat = 12

/-- Remove up to two trailing `=` padding characters. -/
def stripPad (l : List Char) : List Char :=
  match l.reverse with
  | a :: b :: r => if a = '=' then (if b = '=' then r.reverse else (b :: r).reverse) else l
  | [a] => if a = '=' then [] else l
  | [] => l

/-- Decode a base64 character sequence (padding already removed) into
bytes; the final group may hold two or three characters, whose leftover
bits forgiving-base64 discards. -/
def b64DecodeChars : List Char → Option (List Nat)
  | [] => some []
  | [c1, c2] => do
      let v1 ← b64Val c1
      let v2 ← b64Val c2
      some [v1 * 4 + v2 / 16]
  | [c1, c2, c3] => do
      let v1 ← b64Val c1
      let v2 ← b64Val c2
      let v3 ← b64Val c3
      some [v1 * 4 + v2 / 16, v2 % 16 * 16 + v3 / 4]
  | c1 :: c2 :: c3 :: c4 :: rest => do
      let v1 ← b64Val c1
      let v2 ← b64Val c2
      let v3 ← b64Val c3
      let v4 ← b64Val c4
      let bs ← b64DecodeChars rest
      some ((v1 * 4 + v2 / 16) :: (v2 % 16 * 16 + v3 / 4) :: (v3 % 4 * 64 + v4) :: bs)
  | [_] => none

/-- Embedding of `WindowOrWorkerGlobalScope.atob` (forgiving-base64
decode): strip ASCII whitespace, remove canonical `=` padding, reject a
leftover length of one, decode the rest, and return the bytes as a
string of code points below 256. -/
def atob (s : String) : Option String :=
  let l := s.data.filter (fun c => !asciiWs c)
  let l := if l.length % 4 = 0 then stripPad l else l
  if l.length % 4 = 1 then none
  else (b64DecodeChars l).map (fun bs => ⟨bs.map Char.ofNat⟩)

/-! ## The cursor codec (`CMPClient.createCursor` / `parseCursor`) -/

/-- Embedding of `CMPClient.createCursor`: `btoa(JSON.stringify(data))`.
The result is `none` exactly when the platform `btoa` throws, which
happens when the serialization contains a character above `U+00FF`. -/
def createCursor (data : Json) : Option String :=
  btoa (jsonStringify data)

/-- Embedding of `CMPClient.parseCursor`: `JSON.parse(atob(cursor))` with
the catch-all turned into `none` (the source rethrows as
`"Invalid cursor format"`). -/
def parseCursor (cursor : String) : Option Json :=
  (atob cursor).bind jsonParse

/-! ## SHA-256 and HMAC (the platform `crypto.subtle` primitives)

Implemented from FIPS 180-4 and RFC 2104 over bytes and 32-bit words
modelled as `Nat` reduced modulo `2 ^ 32`. -/

/-- Truncation to a 32-bit word. -/
def w32 (n : Nat) : Nat := n % 4294967296

/-- Right rotation of a 32-bit word. -/
def rotr32 (k x : Nat) : Nat := x / 2 ^ k + x % 2 ^ k * 2 ^ (32 - k)

/-- Bitwise complement of a 32-bit word. -/
def not32 (x : Nat) : Nat := 4294967295 ^^^ x

/-- FIPS 180-4 lowercase sigma-0. -/
def ssig0 (x : Nat) : Nat := rotr32 7 x ^^^ rotr32 18 x ^^^ x / 2 ^ 3

/-- FIPS 180-4 lowercase sigma-1. -/
def ssig1 (x : Nat) : Nat := rotr32 17 x ^^^ rotr32 19 x ^^^ x / 2 ^ 10

/-- FIPS 180-4 uppercase sigma-0. -/
def bsig0 (x : Nat) : Nat := rotr32 2 x ^^^ rotr32 13 x ^^^ rotr32 22 x

/-- FIPS 180-4 uppercase sigma-1. -/
def bsig1 (x : Nat) : Nat := rotr32 6 x ^^^ rotr32 11 x ^^^ rotr32 25 x

/-- The SHA-256 round constants. -/
def sha256K : List Nat :=
  [1116352408, 1899447441, 3049323471, 3921009573, 961987163, 1508970993,
   2453635748, 2870763221, 3624381080, 310598401, 607225278, 1426881987,
   1925078388, 2162078206, 2614888103, 3248222580, 3835390401, 4022224774,
   264347078, 604807628, 770255983, 1249150122, 1555081692, 1996064986,
   2554220882, 2821834349, 2952996808, 3210313671, 3336571891, 3584528711,
   113926993, 338241895, 666307205, 773529912, 1294757372, 1396182291,
   1695183700, 1986661051, 2177026350, 2456956037, 2730485921, 2820302411,
   3259730800, 3345764771, 3516065817, 3600352804, 4094571909, 275423344,
   430227734, 506948616, 659060556, 883997877, 958139571, 1322822218,
   1537002063, 1747873779, 1955562222, 2024104815, 2227730452, 2361852424,
   2428436474, 2756734187, 3204031479, 3329325298]

/-- SHA-256 initial hash value. -/
def sha256H0 : List Nat :=
  [1779033703, 3144134277, 1013904242, 2773480762, 1359893119, 2600822924,
   528734635, 1541459225]

/-- Big-endian 4-byte groups to 32-bit words. -/
def bytesToWords : List Nat → List Nat
  | a :: b :: c :: d :: rest =>
      (a * 16777216 + b * 65536 + c * 256 + d) :: bytesToWords rest
  | _ => []

/-- Big-endian 8-byte rendering of the 64-bit message bit length. -/
def len64Bytes (n : Nat) : List Nat :=
  [n / 2 ^ 56 % 256, n / 2 ^ 48 % 256, n / 2 ^ 40 % 256, n / 2 ^ 32 % 256,
   n / 2 ^ 24 % 256, n / 2 ^ 16 % 256, n / 2 ^ 8 % 256, n % 256]

/-- SHA-256 message padding: a `0x80` byte, zeros to 56 modulo 64, then
the bit length. -/
def sha256Pad (msg : List Nat) : List Nat :=
  msg ++ 0x80 :: List.replicate ((55 + 64 - msg.length % 64) % 64) 0 ++
    len64Bytes (8 * msg.length)

/-- Extend the 16 block words to the 64-entry message schedule; the first
argument counts the remaining extension steps. -/
def sha256Extend : Nat → List Nat → List Nat
  | 0, acc => acc
  | k + 1, acc =>
      let m := acc.length
      sha256Extend k (acc ++ [w32 (ssig1 (acc.getD (m - 2) 0) + acc.getD (m - 7) 0 +
        ssig0 (acc.getD (m - 15) 0) + acc.getD (m - 16) 0)])

/-- One SHA-256 round over the working variables. -/
def sha256Round (st : List Nat) (kw : Nat × Nat) : List Nat :=
  match st with
  | [a, b, c, d, e, f, g, h] =>
      let t1 := w32 (h + bsig1 e + ((e &&& f) ^^^ (not32 e &&& g)) + kw.1 + kw.2)
      let t2 := w32 (bsig0 a + ((a &&& b) ^^^ (a &&& c) ^^^ (b &&& c)))
      [w32 (t1 + t2), a, b, c, w32 (d + t1), e, f, g]
  | other => other

/-- Compress one 64-byte block into the running hash value. -/
def sha256Compress (hv : List Nat) (block : List Nat) : List Nat :=
  let ws := sha256Extend 48 (bytesToWords block)
  let fin := (sha256K.zip ws).foldl sha256Round hv
  (hv.zip fin).map (fun p => w32 (p.1 + p.2))

/-- Fold the padded message's 64-byte blocks; the fuel dominates the
number of blocks. -/
def sha256Blocks : Nat → List Nat → List Nat → List Nat
  | 0, _, hv => hv
  | fuel + 1, msg, hv =>
      match msg with
      | [] => hv
      | _ => sha256Blocks fuel (msg.drop 64) (sha256Compress hv (msg.take 64))

/-- SHA-256 of a byte sequence, as bytes. -/
def sha256 (msg : List Nat) : List Nat :=
  let padded := sha256Pad msg
  let hv := sha256Blocks (padded.length / 64) padded sha256H0
  hv.flatMap (fun w => [w / 2 ^ 24 % 256, w / 2 ^ 16 % 256, w / 2 ^ 8 % 256, w % 256])

/-- HMAC-SHA256 (RFC 2104 / FIPS 198) over byte sequences, with the
64-byte block size of SHA-256. -/
def hmacSha256 (key msg : List Nat) : List Nat :=
  let k0 := if 64 < key.length then sha256 key else key
  let kp := k0 ++ List.replicate (64 - k0.length) 0
  sha256 (kp.map (fun b => b ^^^ 0x5c) ++
    sha256 (kp.map (fun b => b ^^^ 0x36) ++ msg))

/-- UTF-8 encoding of one Unicode scalar value. -/
def utf8EncodeChar (n : Nat) : List Nat :=
  if n < 0x80 then [n]
  else if n < 0x800 then [0xc0 + n / 64, 0x80 + n % 64]
  else if n < 0x10000 then [0xe0 + n / 4096, 0x80 + n / 64 % 64, 0x80 + n % 64]
  else [0xf0 + n / 262144, 0x80 + n / 4096 % 64, 0x80 + n / 64 % 64, 0x80 + n % 64]

/-- Embedding of `TextEncoder.encode`: UTF-8 bytes of a string. -/
def utf8Encode (s : String) : List Nat :=
  s.data.flatMap (fun c => utf8EncodeChar c.toNat)

/-! ## `CMPClient.generateSignature` -/

/-- Fuelled hexadecimal digit accumulation for `natHexDigits`. -/
def natHexAux : Nat → Nat → List Char
  | 0, _ => []
  | fuel + 1, n =>
      if n < 16 then [hexCh n] else natHexAux fuel (n / 16) ++ [hexCh (n % 16)]

/-- JavaScript `b.toString(16)` for a nonnegative number: lowercase
hexadecimal digits without leading zeros. -/
def natHexDigits (n : Nat) : List Char := natHexAux (n + 1) n

/-- JavaScript `s.padStart(2, "0")`. -/
def padStart2 (s : String) : String :=
  if s.length < 2 then ⟨List.replicate (2 - s.length) '0' ++ s.data⟩ else s

/-- Embedding of `CMPClient.generateSignature`: HMAC-SHA256 keyed by the
UTF-8 bytes of `appSecret` over the UTF-8 bytes of
`appKey + timestamp.toString() + requestBody`, each digest byte rendered
with `toString(16).padStart(2, "0")` and the pieces joined. -/
def generateSignature (appKey appSecret : String) (timestamp : Nat)
    (requestBody : String) : String :=
  let signContent := appKey ++ (⟨natDigits timestamp⟩ : String) ++ requestBody
  let digest := hmacSha256 (utf8Encode appSecret) (utf8Encode signContent)
  String.join (digest.map (fun b => padStart2 ⟨natHexDigits b⟩))

/-- The lowercase hexadecimal rendering of a byte sequence, two digits a
byte: the specification's "lowercase hex digest". -/
def lowercaseHexDigest (bytes : List Nat) : String :=
  ⟨bytes.flatMap (fun b => [hexCh (b / 16), hexCh (b % 16)])⟩

/-! ## `CMPClient.makeRequest`: response handling

The network call itself is abstracted as an incoming `HttpResponse`; the
embedding covers everything `makeRequest` does with it.  Messages of
platform-thrown exceptions (the `SyntaxError` of `response.json()` on a
non-JSON body, the `TypeError` of reading `.code` on `null`) are
platform-specific text, so they enter as function parameters. -/

/-- The observable parts of a `fetch` response. -/
structure HttpResponse where
  status : Nat
  statusText : String
  body : String

/-- The `Response.ok` predicate: status in the inclusive range 200-299. -/
def respOk (r : HttpResponse) : Bool := 200 ≤ r.status && r.status ≤ 299

/-- The distinct failure shapes thrown inside `makeRequest`'s `try` block,
before the catch-all rewraps them. -/
inductive CMPError where
  | http (status : Nat) (statusText : String)
  | decode (msg : String)
  | nullAccess (msg : String)
  | invalidFormat (serialized : String)
  | api (code : Json) (msg : String)

/-- The `Error.message` text each `throw new Error(...)` site produces
(platform messages pass through unchanged). -/
def errorMessage : CMPError → String
  | .http status statusText =>
      "HTTP Error: " ++ (⟨natDigits status⟩ : String) ++ " " ++ statusText
  | .decode m => m
  | .nullAccess m => m
  | .invalidFormat serialized => "API Error: Invalid response format - " ++ serialized
  | .api code m => "API Error [" ++ jsToString code ++ "]: " ++ m

/-- The `result.msg || "Unknown error"` expression: the `msg` property
coerced to a string when present and truthy, the default otherwise. -/
def msgOrDefault (v : Json) : String :=
  match jsGetProp v "msg" with
  | some m => if jsTruthy m then jsToString m else "Unknown error"
  | none => "Unknown error"

/-- The response-handling phase of `makeRequest`, up to but not including
the catch-all: non-2xx statuses throw the HTTP error, the body is parsed
as JSON (`decodeMsg` supplying the platform's `SyntaxError` message), a
missing `code` on a non-null object synthesizes the `200 / "OK"` wrapper,
a missing `code` elsewhere throws the invalid-format error (reading
`.code` on `null` throws the platform `TypeError`, `nullMsg`), a `code`
other than `200` throws the API error, and a `code` of `200` returns the
envelope unchanged. -/
def classifyResponse (decodeMsg nullMsg : String → String) (r : HttpResponse) :
    Except CMPError Json :=
  if !respOk r then .error (.http r.status r.statusText)
  else
    match jsonParse r.body with
    | none => .error (.decode (decodeMsg r.body))
    | some v =>
      match v with
      | .null => .error (.nullAccess (nullMsg r.body))
      | _ =>
        match jsGetProp v "code" with
        | none =>
            if jsTypeofObject v then
              .ok (.obj [("code", .num 200), ("msg", .str "OK"), ("data", v)])
            else .error (.invalidFormat (jsonStringify v))
        | some c =>
            if Json.beq c (Json.num 200) then .ok v
            else .error (.api c (msgOrDefault v))

/-- `makeRequest` as the caller sees it: the catch-all rewraps every
failure of the `try` block in a plain `Error` whose message is
`"Request failed: "` followed by the inner message, so all failure kinds
share the one error type `String`. -/
def makeRequestResult (decodeMsg nullMsg : String → String) (r : HttpResponse) :
    Except String Json :=
  match classifyResponse decodeMsg nullMsg r with
  | .ok v => .ok v
  | .error e => .error ("Request failed: " ++ errorMessage e)

/-! ## Query builders -/

/-- Caller options of `CMPClient.querySimList` (the TypeScript
`SIMListQuery`, every field optional). -/
structure SIMListQuery where
  pageNum : Option Int := none
  pageSize : Option Int := none
  enterpriseDataPlan : Option String := none
  expirationTimeStart : Option String := none
  expirationTimeEnd : Option String := none
  iccidStart : Option String := none
  iccidEnd : Option String := none
  label : Option String := none
  simState : Option Int := none
  simType : Option String := none

/-- Append a field when the option is a truthy string (the
`if (field) data.field = field` pattern: absent and empty both skip). -/
def addTruthy (key : String) (v : Option String) (fields : List (String × Json)) :
    List (String × Json) :=
  match v with
  | some s => if s ≠ "" then fields ++ [(key, .str s)] else fields
  | none => fields

/-- The request body `CMPClient.querySimList` posts to `/sim/page`:
`pageNum` defaulting to 1, `pageSize` defaulting to 10 and clamped by
`Math.min(pageSize, 1000)`, and each optional filter only when truthy
(`simState` whenever not `undefined`). -/
def querySimListBody (o : SIMListQuery) : List (String × Json) :=
  let base : List (String × Json) :=
    [("pageNum", .num (o.pageNum.getD 1)), ("pageSize", .num (min (o.pageSize.getD 10) 1000))]
  let f1 := addTruthy "enterpriseDataPlan" o.enterpriseDataPlan base
  let f2 := addTruthy "expirationTimeStart" o.expirationTimeStart f1
  let f3 := addTruthy "expirationTimeEnd" o.expirationTimeEnd f2
  let f4 := addTruthy "iccidStart" o.iccidStart f3
  let f5 := addTruthy "iccidEnd" o.iccidEnd f4
  let f6 := addTruthy "label" o.label f5
  let f7 := match o.simState with
    | some st => f6 ++ [("simState", .num st)]
    | none => f6
  addTruthy "simType" o.simType f7

/-- Caller options of `CMPClient.queryEuiccPage` (the TypeScript
`EuiccPageQuery`). -/
structure EuiccPageQuery where
  childEnterpriseId : Option Int := none
  iccid : Option String := none
  pageNum : Option Int := none
  pageSize : Option Int := none
  profileStatus : Option Int := none

/-- The request body `CMPClient.queryEuiccPage` posts to
`/esim/euicc/page`, or the validation error thrown before the request:
`pageNum` defaulting to 1, `pageSize` defaulting to 10 and clamped to
1000, `childEnterpriseId` and `profileStatus` passed when present,
`iccid` trimmed and passed when nonblank, and a `profileStatus` outside
`[1, 9]` rejected. -/
def queryEuiccPageBody (o : EuiccPageQuery) : Except String (List (String × Json)) :=
  let base : List (String × Json) :=
    [("pageNum", .num (o.pageNum.getD 1)), ("pageSize", .num (min (o.pageSize.getD 10) 1000))]
  let f1 := match o.childEnterpriseId with
    | some i => base ++ [("childEnterpriseId", .num i)]
    | none => base
  let f2 := match o.iccid with
    | some s => if s ≠ "" ∧ jsTrim s ≠ "" then f1 ++ [("iccid", .str (jsTrim s))] else f1
    | none => f1
  let f3 := match o.profileStatus with
    | some st => f2 ++ [("profileStatus", .num st)]
    | none => f2
  match o.profileStatus with
  | some st =>
      if st < 1 ∨ 9 < st then
        .error "Profile status must be between 1-9 (see ProfileStatus enum)"
      else .ok f3
  | none => .ok f3

/-- The body `CMPClient.querySimMonthData` posts to
`/sim/queryMonthData`, or the validation error thrown before any request:
a blank `iccid` or `month` is rejected, `month` must be exactly six
decimal digits after trimming, and the body carries the trimmed values. -/
def querySimMonthData (iccid month : String) : Except String (List (String × Json)) :=
  if iccid = "" ∨ jsTrim iccid = "" then .error "ICCID cannot be empty"
  else if month = "" ∨ jsTrim month = "" then .error "Month cannot be empty"
  else if !((jsTrim month).data.length = 6 ∧ (jsTrim month).data.all isDigitCh) then
    .error "Month format must be yyyyMM (e.g., 202301)"
  else .ok [("iccid", .str (jsTrim iccid)), ("month", .str (jsTrim month))]

/-- Modelled from the spec: `queryESimBatch` itself is absent from the
available sources (only the `query_esim_batch` tool handler that calls
`this.cmpClient.queryESimBatch({ iccids })` is present), so its
validation is taken from the specification's words: entries are trimmed
and empty entries discarded; a list that becomes empty raises a
validation error naming "no valid ICCIDs"; more than 100 remaining
entries raise a validation error; otherwise the cleaned list is sent. -/
def queryESimBatch (iccids : List String) : Except String (List String) :=
  let cleaned := (iccids.map jsTrim).filter (fun s => s ≠ "")
  if cleaned.length = 0 then .error "No valid ICCIDs provided"
  else if 100 < cleaned.length then .error "Maximum 100 ICCIDs allowed per batch query"
  else .ok cleaned

/-! ## The cursor-paginated tool handlers

The `query_sim_list` and `query_euicc_list` tools parse the incoming
cursor, clamp the page size, build the client query by a JavaScript
object-literal spread, and, when `current < pages`, build the next cursor
state by another spread.  Object literals evaluate their entries in
order, a later entry for an existing key overwriting that key's value in
place, which is what `jsSet` and `jsSpreadInto` implement. -/

/-- JavaScript property assignment on an object represented as an ordered
association list: an existing key keeps its position and takes the new
value, a new key is appended. -/
def jsSet (o : List (String × Json)) (key : String) (v : Json) : List (String × Json) :=
  if o.any (fun p => p.1 = key) then
    o.map (fun p => if p.1 = key then (key, v) else p)
  else o ++ [(key, v)]

/-- Spread `extra`'s entries into `base` in order, later entries
overwriting existing keys: the semantics of `\x7b ...base-literal,
...extra \x7d`. -/
def jsSpreadInto (base extra : List (String × Json)) : List (String × Json) :=
  extra.foldl (fun acc p => jsSet acc p.1 p.2) base

/-- The next-cursor state both paginated handlers build when
`current < pages`: the object literal
`\x7b pageNum: current + 1, ...cursorData \x7d`. -/
def nextCursorState (cursorData : List (String × Json)) (current : Int) :
    List (String × Json) :=
  jsSpreadInto [("pageNum", .num (current + 1))] cursorData

/-- The `cursorData.pageNum || 1` expression of both handlers, on the
numeric page numbers this code stores in its cursors. -/
def cursorPageNum (cursorData : List (String × Json)) : Int :=
  match jsGetProp (.obj cursorData) "pageNum" with
  | some (.num n) => if n ≠ 0 then n else 1
  | _ => 1

/-- Arguments of the cursor-paginated `query_sim_list` tool (its zod
schema: all optional, no `pageNum`). -/
structure SimListToolParams where
  pageSize : Option Int := none
  enterpriseDataPlan : Option String := none
  expirationTimeStart : Option String := none
  expirationTimeEnd : Option String := none
  iccidStart : Option String := none
  iccidEnd : Option String := none
  label : Option String := none
  simState : Option Int := none
  simType : Option String := none

/-- The client query the cursor-paginated `query_sim_list` handler passes
to `querySimList`: it computes `pageSize = Math.min(params.pageSize || 10,
50)` and then builds `\x7b pageNum, pageSize, ...params \x7d` (with
`cursor` and `format` deleted), so a `pageSize` key present in `params`
overwrites the clamped value with the caller's raw one. -/
def simListToolQueryParams (cursorData : List (String × Json)) (p : SimListToolParams) :
    SIMListQuery :=
  let pageNum := cursorPageNum cursorData
  let clamped := min (match p.pageSize with
    | some v => if v ≠ 0 then v else 10
    | none => 10) 50
  { pageNum := some pageNum
    pageSize := some (match p.pageSize with
      | some v => v
      | none => clamped)
    enterpriseDataPlan := p.enterpriseDataPlan
    expirationTimeStart := p.expirationTimeStart
    expirationTimeEnd := p.expirationTimeEnd
    iccidStart := p.iccidStart
    iccidEnd := p.iccidEnd
    label := p.label
    simState := p.simState
    simType := p.simType }

/-- The outgoing `/sim/page` body of the cursor-paginated
`query_sim_list` tool for a call carrying no cursor (`cursorData` is the
empty object) or a decoded cursor state. -/
def simListToolOutgoingBody (cursorData : List (String × Json)) (p : SimListToolParams) :
    List (String × Json) :=
  querySimListBody (simListToolQueryParams cursorData p)

/-! ## Lemmas: equality test -/

mutual

theorem Json.beq_iff : ∀ a b : Json, Json.beq a b = true ↔ a = b
  | .null, b => by cases b <;> simp [Json.beq]
  | .bool x, b => by cases b <;> simp [Json.beq]
  | .num x, b => by cases b <;> simp [Json.beq]
  | .str x, b => by cases b <;> simp [Json.beq]
  | .arr xs, b => by
      cases b <;> simp [Json.beq]
      exact Json.beqList_iff xs _
  | .obj fs, b => by
      cases b <;> simp [Json.beq]
      exact Json.beqFields_iff fs _

theorem Json.beqList_iff : ∀ xs ys : List Json, Json.beqList xs ys = true ↔ xs = ys
  | [], ys => by cases ys <;> simp [Json.beqList]
  | x :: xs, ys => by
      cases ys with
      | nil => simp [Json.beqList]
      | cons y ys =>
        simp only [Json.beqList, Bool.and_eq_true, List.cons.injEq]
        rw [Json.beq_iff, Json.beqList_iff]

theorem Json.beqFields_iff :
    ∀ xs ys : List (String × Json), Json.beqFields xs ys = true ↔ xs = ys
  | [], ys => by cases ys <;> simp [Json.beqFields]
  | (k, v) :: xs, ys => by
      cases ys with
      | nil => simp [Json.beqFields]
      | cons y ys =>
        obtain ⟨l, w⟩ := y
        simp only [Json.beqFields, Bool.and_eq_true, List.cons.injEq, Prod.mk.injEq,
          beq_iff_eq]
        rw [Json.beq_iff, Json.beqFields_iff]

end

instance : DecidableEq Json := fun a b =>
  decidable_of_iff (Json.beq a b = true) (Json.beq_iff a b)


/-! ## Lemmas: characters and digits -/

theorem toNat_ofNat_valid {n : Nat} (h : n < 0xd800) : (Char.ofNat n).toNat = n := by
  have hv : n.isValidChar := Or.inl h
  simp [Char.ofNat, hv, Char.toNat, Char.ofNatAux, UInt32.toNat, BitVec.toNat_ofNatLt]

theorem toNat_inj {a b : Char} (h : a.toNat = b.toNat) : a = b := by
  cases a with | mk av hva =>
  cases b with | mk bv hvb =>
  simp only [Char.toNat] at h
  have hv : av = bv := by
    cases av; cases bv
    simp only [UInt32.toNat] at h
    congr 1
    exact BitVec.eq_of_toNat_eq h
  simp [hv]

theorem isDigitCh_digitCh {m : Nat} (h : m < 10) : isDigitCh (digitCh m) = true := by
  have : (digitCh m).toNat = 48 + m := toNat_ofNat_valid (by omega)
  simp [isDigitCh, this]
  omega

theorem digitVal_digitCh {m : Nat} (h : m < 10) : digitVal (digitCh m) = m := by
  have : (digitCh m).toNat = 48 + m := toNat_ofNat_valid (by omega)
  simp [digitVal, this]

theorem digitCh_ne_zeroCh {m : Nat} (h1 : 1 ≤ m) (h2 : m < 10) : digitCh m ≠ '0' := by
  intro h
  have h48 : (digitCh m).toNat = ('0').toNat := congrArg Char.toNat h
  rw [show digitCh m = Char.ofNat (48 + m) from rfl,
    @toNat_ofNat_valid (48 + m) (by omega)] at h48
  have h0 : ('0').toNat = 48 := rfl
  omega

theorem isJsonWs_of_digit {c : Char} (h : isDigitCh c = true) : isJsonWs c = false := by
  simp [isDigitCh] at h
  simp [isJsonWs]
  omega

theorem skipWs_not_ws {c : Char} {l : List Char} (h : isJsonWs c = false) :
    skipWs (c :: l) = c :: l := by
  simp [skipWs, List.dropWhile, h]

/-! ## Lemmas: decimal digit strings -/

theorem natDigitsAux_fuel (n : Nat) : ∀ f1 f2, n < f1 → n < f2 →
    natDigitsAux f1 n = natDigitsAux f2 n := by
  induction n using Nat.strong_induction_on with
  | _ n ih =>
    intro f1 f2 h1 h2
    match f1, f2 with
    | a + 1, b + 1 =>
      simp only [natDigitsAux]
      by_cases h : n < 10
      · simp [h]
      · simp only [h, if_false]
        rw [ih (n / 10) (by omega) a b (by omega) (by omega)]

theorem natDigitsAux_shape (n : Nat) : ∀ fuel, n < fuel →
    ∃ c cs, natDigitsAux fuel n = c :: cs ∧ (∀ d ∈ c :: cs, isDigitCh d = true) ∧
      (1 ≤ n → c ≠ '0') := by
  induction n using Nat.strong_induction_on with
  | _ n ih =>
    intro fuel hf
    match fuel with
    | f + 1 =>
      simp only [natDigitsAux]
      by_cases h : n < 10
      · refine ⟨digitCh n, [], by simp [h], ?_, ?_⟩
        · intro d hd
          simp at hd
          rw [hd]
          exact isDigitCh_digitCh h
        · intro h1
          exact digitCh_ne_zeroCh h1 h
      · obtain ⟨c, cs, heq, hdig, hz⟩ := ih (n / 10) (by omega) f (by omega)
        refine ⟨c, cs ++ [digitCh (n % 10)], by simp [h, heq], ?_, fun _ => hz (by omega)⟩
        intro d hd
        simp only [List.mem_cons, List.mem_append, List.mem_singleton] at hd
        rcases hd with h1 | h2 | h3
        · exact hdig d (by simp [h1])
        · exact hdig d (by simp [h2])
        · rcases h3 with h3 | h3
          · rw [h3]
            exact isDigitCh_digitCh (by omega)
          · simp at h3

theorem natDigitsAux_foldl (n : Nat) : ∀ fuel acc, n < fuel →
    (natDigitsAux fuel n).foldl (fun a c => a * 10 + digitVal c) acc =
      acc * 10 ^ (natDigitsAux fuel n).length + n := by
  induction n using Nat.strong_induction_on with
  | _ n ih =>
    intro fuel acc hf
    match fuel with
    | f + 1 =>
      simp only [natDigitsAux]
      by_cases h : n < 10
      · simp [h, digitVal_digitCh h]
      · simp only [h, if_false, List.foldl_append, List.length_append, List.foldl_cons,
          List.foldl_nil, List.length_cons, List.length_nil]
        rw [ih (n / 10) (by omega) f acc (by omega), digitVal_digitCh (by omega : n % 10 < 10)]
        have hdm : n / 10 * 10 + n % 10 = n := by omega
        generalize (natDigitsAux f (n / 10)).length = L
        rw [pow_succ]
        calc (acc * 10 ^ L + n / 10) * 10 + n % 10
            = acc * (10 ^ L * 10) + (n / 10 * 10 + n % 10) := by ring
          _ = acc * (10 ^ L * 10) + n := by rw [hdm]

theorem readDigits_append {ds : List Char} : ∀ {rest : List Char} {acc : Nat},
    (∀ c ∈ ds, isDigitCh c = true) → notDigitStart rest = true →
    readDigits (ds ++ rest) acc =
      (ds.foldl (fun a c => a * 10 + digitVal c) acc, rest) := by
  induction ds with
  | nil =>
    intro rest acc _ hrest
    match rest with
    | [] => rfl
    | c :: r =>
      simp [notDigitStart] at hrest
      simp [readDigits, hrest]
  | cons d ds ihd =>
    intro rest acc hds hrest
    have hd : isDigitCh d = true := hds d (by simp)
    simp only [List.cons_append, readDigits, hd, if_true, List.foldl_cons]
    exact ihd (fun c hc => hds c (by simp [hc])) hrest

theorem parseNat_natDigits {m : Nat} {rest : List Char} (hrest : notDigitStart rest = true) :
    parseNat (natDigits m ++ rest) = some (m, rest) := by
  obtain ⟨c, cs, heq, hdig, hz⟩ := natDigitsAux_shape m (m + 1) (by omega)
  rw [natDigits, heq]
  by_cases hm : m = 0
  · subst hm
    have : natDigitsAux 1 0 = [digitCh 0] := by simp [natDigitsAux]
    rw [this] at heq
    obtain ⟨hc, hcs⟩ : c = digitCh 0 ∧ cs = [] := by
      constructor <;> injection heq <;> simp_all
    subst hc; subst hcs
    have h0 : digitCh 0 = '0' := by decide
    rw [h0]
    match rest with
    | [] => rfl
    | d :: r =>
      simp [notDigitStart] at hrest
      have h0d : isDigitCh '0' = true := by decide
      simp [parseNat, hrest, h0d]
  · have hc : isDigitCh c = true := hdig c (by simp)
    have hcz : c ≠ '0' := hz (by omega)
    simp only [List.cons_append, parseNat, hc, if_true, hcz, if_false]
    rw [readDigits_append (fun x hx => hdig x (by simp [hx])) hrest]
    have hfold := natDigitsAux_foldl m (m + 1) 0 (by omega)
    rw [heq] at hfold
    simp only [List.foldl_cons, Nat.zero_mul, Nat.zero_add] at hfold
    rw [hfold]

/-! ## Lemmas: string literals -/

theorem hexVal_hexCh : ∀ n, n < 16 → hexVal (hexCh n) = some n := by decide

theorem ofNat_toNat_ch {c : Char} {m : Nat} (hm : m < 0xd800) (h : c.toNat = m) :
    Char.ofNat m = c := by
  apply toNat_inj
  rw [toNat_ofNat_valid hm, h]

set_option maxHeartbeats 1000000 in
theorem parseStrBody_esc : ∀ (cs : List Char) (fuel : Nat) (rest : List Char),
    cs.length + 1 ≤ fuel →
    parseStrBody fuel (cs.flatMap escChar ++ '"' :: rest) = some (cs, rest) := by
  intro cs
  induction cs with
  | nil =>
    intro fuel rest hf
    match fuel with
    | f + 1 => simp [parseStrBody]
  | cons c cs ih =>
    intro fuel rest hf
    match fuel with
    | f + 1 =>
    have hf2 : cs.length + 1 ≤ f := by simp at hf; omega
    have ihf := ih f rest hf2
    simp only [List.flatMap_cons, List.append_assoc]
    by_cases h1 : c = '"'
    · subst h1
      simp [escChar, parseStrBody, unescCh, ihf]
    by_cases h2 : c = '\\'
    · subst h2
      simp [escChar, parseStrBody, unescCh, ihf]
    by_cases h3 : c.toNat = 8
    · have hc := ofNat_toNat_ch (by omega) h3
      simp [escChar, h1, h2, h3, parseStrBody, unescCh, ihf, hc]
      exact hc
    by_cases h4 : c.toNat = 9
    · have hc := ofNat_toNat_ch (by omega) h4
      simp [escChar, h1, h2, h3, h4, parseStrBody, unescCh, ihf, hc]
      exact hc
    by_cases h5 : c.toNat = 10
    · have hc := ofNat_toNat_ch (by omega) h5
      simp [escChar, h1, h2, h3, h4, h5, parseStrBody, unescCh, ihf, hc]
      exact hc
    by_cases h6 : c.toNat = 12
    · have hc := ofNat_toNat_ch (by omega) h6
      simp [escChar, h1, h2, h3, h4, h5, h6, parseStrBody, unescCh, ihf, hc]
      exact hc
    by_cases h7 : c.toNat = 13
    · have hc := ofNat_toNat_ch (by omega) h7
      simp [escChar, h1, h2, h3, h4, h5, h6, h7, parseStrBody, unescCh, ihf, hc]
      exact hc
    by_cases h8 : c.toNat < 32
    · have e3 : hexVal (hexCh (c.toNat / 16)) = some (c.toNat / 16) :=
        hexVal_hexCh _ (by omega)
      have e4 : hexVal (hexCh (c.toNat % 16)) = some (c.toNat % 16) :=
        hexVal_hexCh _ (by omega)
      have e0 : hexVal '0' = some 0 := by decide
      have hcode : c.toNat / 16 * 16 + c.toNat % 16 = c.toNat := by omega
      have hc : Char.ofNat c.toNat = c := ofNat_toNat_ch (by omega) rfl
      rw [show escChar c = ['\\', 'u', '0', '0', hexCh (c.toNat / 16), hexCh (c.toNat % 16)]
        by simp [escChar, h1, h2, h3, h4, h5, h6, h7, h8]]
      simp only [List.cons_append, List.nil_append, parseStrBody]
      simp [e0, e3, e4]
      simp only [hcode]
      rw [if_pos (Or.inl (show c.toNat < 55296 by omega))]
      simp [ihf, hc]
    · rw [show escChar c = [c] by simp [escChar, h1, h2, h3, h4, h5, h6, h7, h8]]
      simp only [List.cons_append, List.nil_append, parseStrBody]
      simp [h1, h2, h8, ihf]

/-! ## Lemmas: weights are dominated by printed length -/

theorem escChar_len_pos (c : Char) : 1 ≤ (escChar c).length := by
  unfold escChar
  split_ifs <;> simp

theorem flatMap_esc_len (l : List Char) : l.length ≤ (l.flatMap escChar).length := by
  induction l with
  | nil => simp
  | cons c cs ih =>
    have := escChar_len_pos c
    simp only [List.flatMap_cons, List.length_append, List.length_cons]
    omega

theorem strLitChars_len (s : String) : s.length + 2 ≤ (strLitChars s).length := by
  have := flatMap_esc_len s.data
  simp only [strLitChars, List.length_cons, List.length_append, List.length_singleton,
    String.length]
  omega

mutual

theorem jsonWeight_le : ∀ v : Json, jsonWeight v ≤ 2 * (printJson v).length
  | .null => by simp [jsonWeight, printJson]
  | .bool b => by cases b <;> simp [jsonWeight, printJson]
  | .num n => by
      obtain ⟨c, cs, heq, -, -⟩ := natDigitsAux_shape n.natAbs (n.natAbs + 1) (by omega)
      simp only [jsonWeight, printJson, intChars, natDigits]
      split_ifs <;> rw [heq] <;> simp <;> omega
  | .str s => by
      have h1 := strLitChars_len s
      simp only [jsonWeight, printJson]
      omega
  | .arr xs => by
      have h1 := jsonWeightItems_le xs
      simp only [jsonWeight, printJson, List.length_cons, List.length_append,
        List.length_singleton]
      omega
  | .obj fs => by
      have h1 := jsonWeightFields_le fs
      simp only [jsonWeight, printJson, List.length_cons, List.length_append,
        List.length_singleton]
      omega

theorem jsonWeightItems_le : ∀ xs : List Json,
    jsonWeightItems xs ≤ 2 * (printItems xs).length + 1
  | [] => by simp [jsonWeightItems, printItems]
  | [x] => by
      have h1 := jsonWeight_le x
      simp only [jsonWeightItems, printItems]
      omega
  | x :: y :: ys => by
      have h1 := jsonWeight_le x
      have h2 := jsonWeightItems_le (y :: ys)
      rw [show jsonWeightItems (x :: y :: ys) =
            1 + jsonWeight x + jsonWeightItems (y :: ys) from rfl,
        show printItems (x :: y :: ys) = printJson x ++ ',' :: printItems (y :: ys) from rfl]
      simp only [List.length_append, List.length_cons]
      omega

theorem jsonWeightFields_le : ∀ fs : List (String × Json),
    jsonWeightFields fs ≤ 2 * (printFields fs).length + 1
  | [] => by simp [jsonWeightFields, printFields]
  | [(k, v)] => by
      have h1 := jsonWeight_le v
      have h2 := strLitChars_len k
      simp only [jsonWeightFields, printFields, List.length_append, List.length_cons]
      omega
  | (k, v) :: f :: fs => by
      have h1 := jsonWeight_le v
      have h2 := strLitChars_len k
      have h3 := jsonWeightFields_le (f :: fs)
      rw [show jsonWeightFields ((k, v) :: f :: fs) =
            2 + k.length + jsonWeight v + jsonWeightFields (f :: fs) from rfl,
        show printFields ((k, v) :: f :: fs) =
            strLitChars k ++ ':' :: printJson v ++ ',' :: printFields (f :: fs) from rfl]
      simp only [List.length_append, List.length_cons]
      omega

end

/-! ## Lemmas: leading characters of serializations -/

theorem printJson_head (v : Json) : ∃ c l, printJson v = c :: l ∧ isJsonWs c = false ∧
    c ≠ ']' ∧ c ≠ '}' := by
  cases v with
  | null => exact ⟨'n', _, rfl, by decide, by decide, by decide⟩
  | bool b =>
    cases b
    · exact ⟨'f', ['a', 'l', 's', 'e'], by simp [printJson], by decide, by decide, by decide⟩
    · exact ⟨'t', ['r', 'u', 'e'], by simp [printJson], by decide, by decide, by decide⟩
  | num n =>
    obtain ⟨c, cs, heq, hdig, -⟩ := natDigitsAux_shape n.natAbs (n.natAbs + 1) (by omega)
    have hc : isDigitCh c = true := hdig c (by simp)
    by_cases hn : n < 0
    · exact ⟨'-', natDigits n.natAbs, by simp [printJson, intChars, hn], by decide,
        by decide, by decide⟩
    · refine ⟨c, cs, by simp [printJson, intChars, hn, natDigits, heq],
        isJsonWs_of_digit hc, ?_, ?_⟩
      · intro he
        rw [he] at hc
        exact absurd hc (by decide)
      · intro he
        rw [he] at hc
        exact absurd hc (by decide)
  | str s => exact ⟨'"', _, rfl, by decide, by decide, by decide⟩
  | arr xs => exact ⟨'[', _, rfl, by decide, by decide, by decide⟩
  | obj fs => exact ⟨'{', _, rfl, by decide, by decide, by decide⟩

/-! ## Lemmas: the parser inverts the printer -/

theorem nds_cons {c : Char} (l : List Char) (h : isDigitCh c = false) :
    notDigitStart (c :: l) = true := by
  simp [notDigitStart, h]

theorem skipWsC (c : Char) (h : isJsonWs c = false) :
    ∀ l : List Char, skipWs (c :: l) = c :: l :=
  fun _ => skipWs_not_ws h

theorem jsonWeight_pos : ∀ v : Json, 1 ≤ jsonWeight v
  | .null => by simp [jsonWeight]
  | .bool b => by simp [jsonWeight]
  | .num n => by simp [jsonWeight]
  | .str s => by simp [jsonWeight]
  | .arr xs => by rw [show jsonWeight (.arr xs) = 1 + jsonWeightItems xs from rfl]; omega
  | .obj fs => by rw [show jsonWeight (.obj fs) = 1 + jsonWeightFields fs from rfl]; omega

theorem pv_dash_step (f : Nat) (X : List Char) :
    parseValue (f + 1) ('-' :: X) =
      (parseNat X).map (fun p => (Json.num (-(p.1 : Int)), p.2)) := rfl

theorem pv_quote_step (f : Nat) (X : List Char) :
    parseValue (f + 1) ('"' :: X) =
      (parseStrBody f X).map (fun p => (Json.str ⟨p.1⟩, p.2)) := rfl

theorem pv_lbrack_cons (f : Nat) (X : List Char) (d : Char) (r2 : List Char)
    (hX : skipWs X = d :: r2) :
    parseValue (f + 1) ('[' :: X) =
      if d = ']' then some (Json.arr [], r2)
      else (parseItems f X).map (fun p => (Json.arr p.1, p.2)) := by
  rw [show parseValue (f + 1) ('[' :: X) =
      (match skipWs X with
       | [] => (parseItems f X).map (fun p => (Json.arr p.1, p.2))
       | d :: r2 =>
         if d = ']' then some (Json.arr [], r2)
         else (parseItems f X).map (fun p => (Json.arr p.1, p.2))) from rfl, hX]

theorem pv_lbrace_cons (f : Nat) (X : List Char) (d : Char) (r2 : List Char)
    (hX : skipWs X = d :: r2) :
    parseValue (f + 1) ('\x7b' :: X) =
      if d = '\x7d' then some (Json.obj [], r2)
      else (parseFields f (skipWs X)).map (fun p => (Json.obj p.1, p.2)) := by
  rw [show parseValue (f + 1) ('\x7b' :: X) =
      (match skipWs X with
       | [] => (parseFields f (skipWs X)).map (fun p => (Json.obj p.1, p.2))
       | d :: r2 =>
         if d = '\x7d' then some (Json.obj [], r2)
         else (parseFields f (skipWs X)).map (fun p => (Json.obj p.1, p.2))) from rfl, hX]

theorem pi_cons (f : Nat) (input : List Char) (v : Json) (r : List Char) (d : Char)
    (r2 : List Char) (hv : parseValue f input = some (v, r)) (hr : skipWs r = d :: r2) :
    parseItems (f + 1) input =
      if d = ',' then (parseItems f r2).map (fun p => (v :: p.1, p.2))
      else if d = ']' then some ([v], r2)
      else none := by
  rw [show parseItems (f + 1) input =
      (parseValue f input).bind (fun vr =>
        match skipWs vr.2 with
        | [] => none
        | d :: r2 =>
          if d = ',' then (parseItems f r2).map (fun p => (vr.1 :: p.1, p.2))
          else if d = ']' then some ([vr.1], r2)
          else none) from rfl, hv, Option.some_bind]
  show (match skipWs r with
        | [] => none
        | e :: r3 =>
          if e = ',' then (parseItems f r3).map (fun p => (v :: p.1, p.2))
          else if e = ']' then some ([v], r3)
          else none) =
      (if d = ',' then (parseItems f r2).map (fun p => (v :: p.1, p.2))
       else if d = ']' then some ([v], r2)
       else none)
  rw [hr]

theorem pf_cons (f : Nat) (X : List Char) (kd : List Char) (r r2 : List Char) (v : Json)
    (r3 : List Char) (e : Char) (r4 : List Char)
    (hk : parseStrBody f X = some (kd, r)) (h1 : skipWs r = ':' :: r2)
    (hv : parseValue f r2 = some (v, r3)) (h2 : skipWs r3 = e :: r4) :
    parseFields (f + 1) ('"' :: X) =
      if e = ',' then
        (parseFields f (skipWs r4)).bind
          (fun p => some ((String.mk kd, v) :: p.1, p.2))
      else if e = '\x7d' then some ([(String.mk kd, v)], r4)
      else none := by
  rw [show parseFields (f + 1) ('"' :: X) =
      (parseStrBody f X).bind (fun kr =>
        match skipWs kr.2 with
        | [] => none
        | d :: r2 =>
          if d = ':' then
            (parseValue f r2).bind (fun vr =>
              match skipWs vr.2 with
              | [] => none
              | e :: r4 =>
                if e = ',' then
                  (parseFields f (skipWs r4)).bind
                    (fun p => some ((String.mk kr.1, vr.1) :: p.1, p.2))
                else if e = '\x7d' then some ([(String.mk kr.1, vr.1)], r4)
                else none)
          else none) from rfl, hk, Option.some_bind]
  show (match skipWs r with
        | [] => none
        | d2 :: r5 =>
          if d2 = ':' then
            (parseValue f r5).bind (fun vr =>
              match skipWs vr.2 with
              | [] => none
              | e2 :: r6 =>
                if e2 = ',' then
                  (parseFields f (skipWs r6)).bind
                    (fun p => some ((String.mk kd, vr.1) :: p.1, p.2))
                else if e2 = '\x7d' then some ([(String.mk kd, vr.1)], r6)
                else none)
          else none) =
      (if e = ',' then
        (parseFields f (skipWs r4)).bind
          (fun p => some ((String.mk kd, v) :: p.1, p.2))
      else if e = '\x7d' then some ([(String.mk kd, v)], r4)
      else none)
  rw [h1]
  show ((parseValue f r2).bind (fun vr =>
          match skipWs vr.2 with
          | [] => none
          | e2 :: r6 =>
            if e2 = ',' then
              (parseFields f (skipWs r6)).bind
                (fun p => some ((String.mk kd, vr.1) :: p.1, p.2))
            else if e2 = '\x7d' then some ([(String.mk kd, vr.1)], r6)
            else none)) =
      (if e = ',' then
        (parseFields f (skipWs r4)).bind
          (fun p => some ((String.mk kd, v) :: p.1, p.2))
      else if e = '\x7d' then some ([(String.mk kd, v)], r4)
      else none)
  rw [hv, Option.some_bind]
  show (match skipWs r3 with
        | [] => none
        | e2 :: r6 =>
          if e2 = ',' then
            (parseFields f (skipWs r6)).bind
              (fun p => some ((String.mk kd, v) :: p.1, p.2))
          else if e2 = '\x7d' then some ([(String.mk kd, v)], r6)
          else none) =
      (if e = ',' then
        (parseFields f (skipWs r4)).bind
          (fun p => some ((String.mk kd, v) :: p.1, p.2))
      else if e = '\x7d' then some ([(String.mk kd, v)], r4)
      else none)
  rw [h2]

mutual

theorem parseValue_print : ∀ (v : Json) (fuel : Nat) (rest : List Char),
    jsonWeight v ≤ fuel → notDigitStart rest = true →
    parseValue fuel (printJson v ++ rest) = some (v, rest)
  | .null, fuel, rest, hw, hr => by
      obtain ⟨f, rfl⟩ : ∃ f, fuel = f + 1 :=
        ⟨fuel - 1, by have := jsonWeight_pos .null; omega⟩
      exact rfl
  | .bool true, fuel, rest, hw, hr => by
      obtain ⟨f, rfl⟩ : ∃ f, fuel = f + 1 :=
        ⟨fuel - 1, by have := jsonWeight_pos (.bool true); omega⟩
      exact rfl
  | .bool false, fuel, rest, hw, hr => by
      obtain ⟨f, rfl⟩ : ∃ f, fuel = f + 1 :=
        ⟨fuel - 1, by have := jsonWeight_pos (.bool false); omega⟩
      exact rfl
  | .num n, fuel, rest, hw, hr => by
      obtain ⟨f, rfl⟩ : ∃ f, fuel = f + 1 :=
        ⟨fuel - 1, by have := jsonWeight_pos (.num n); omega⟩
      have hpn := @parseNat_natDigits n.natAbs rest hr
      by_cases hn : n < 0
      · rw [show printJson (.num n) ++ rest = '-' :: (natDigits n.natAbs ++ rest) by
          simp [printJson, intChars, hn]]
        rw [pv_dash_step, hpn, Option.map_some']
        have hneg : -((n.natAbs : Int)) = n := by omega
        rw [show (Json.num (-((n.natAbs : Int))), rest) = (Json.num n, rest) by
          rw [hneg]]
      · obtain ⟨c, cs, heq, hdig, -⟩ := natDigitsAux_shape n.natAbs (n.natAbs + 1)
          (by omega)
        have hc : isDigitCh c = true := hdig c (by simp)
        have hph : printJson (.num n) ++ rest = c :: (cs ++ rest) := by
          simp [printJson, intChars, hn, natDigits, heq]
        rw [hph]
        simp only [parseValue]
        rw [skipWs_not_ws (isJsonWs_of_digit hc)]
        have c1 : ¬c = 'n' := fun he => absurd (he ▸ hc) (by decide)
        have c2 : ¬c = 't' := fun he => absurd (he ▸ hc) (by decide)
        have c3 : ¬c = 'f' := fun he => absurd (he ▸ hc) (by decide)
        have c4 : ¬c = '"' := fun he => absurd (he ▸ hc) (by decide)
        have c5 : ¬c = '[' := fun he => absurd (he ▸ hc) (by decide)
        have c6 : ¬c = '\x7b' := fun he => absurd (he ▸ hc) (by decide)
        have c7 : ¬c = '-' := fun he => absurd (he ▸ hc) (by decide)
        have hpn2 : parseNat (c :: (cs ++ rest)) = some (n.natAbs, rest) := by
          rw [show c :: (cs ++ rest) = (c :: cs) ++ rest from rfl, ← heq]
          exact hpn
        have habs : ((n.natAbs : Int)) = n := by omega
        simp only [c1, if_false, c2, c3, c4, c5, c6, c7, hc, if_true, hpn2,
          Option.map_some']
        rw [show (Json.num ((n.natAbs : Int)), rest) = (Json.num n, rest) by rw [habs]]
  | .str s, fuel, rest, hw, hr => by
      obtain ⟨f, rfl⟩ : ∃ f, fuel = f + 1 :=
        ⟨fuel - 1, by have := jsonWeight_pos (.str s); omega⟩
      have hb : s.data.length + 1 ≤ f := by
        have h2 : jsonWeight (.str s) = s.data.length + 2 := rfl
        omega
      have hsb := parseStrBody_esc s.data f rest hb
      rw [show printJson (.str s) ++ rest =
        '"' :: (s.data.flatMap escChar ++ '"' :: rest) by
          simp [printJson, strLitChars]]
      rw [pv_quote_step, hsb, Option.map_some']
  | .arr [], fuel, rest, hw, hr => by
      obtain ⟨f, rfl⟩ : ∃ f, fuel = f + 1 :=
        ⟨fuel - 1, by have := jsonWeight_pos (.arr []); omega⟩
      exact rfl
  | .arr (x :: xs), fuel, rest, hw, hr => by
      obtain ⟨f, rfl⟩ : ∃ f, fuel = f + 1 :=
        ⟨fuel - 1, by have := jsonWeight_pos (.arr (x :: xs)); omega⟩
      have hwi : jsonWeightItems (x :: xs) ≤ f := by
        have h2 : jsonWeight (.arr (x :: xs)) = 1 + jsonWeightItems (x :: xs) := rfl
        omega
      have hitems := parseItems_print (x :: xs) f rest (by simp) hwi
      obtain ⟨c, l, hpx, hcws, hcne, -⟩ := printJson_head x
      obtain ⟨t, ht⟩ : ∃ t, printItems (x :: xs) = printJson x ++ t := by
        cases xs
        · exact ⟨[], by simp [printItems]⟩
        · exact ⟨',' :: printItems _, rfl⟩
      have hscrut : skipWs (printItems (x :: xs) ++ ']' :: rest) =
          c :: (l ++ (t ++ ']' :: rest)) := by
        rw [ht, hpx]
        simp only [List.cons_append, List.append_assoc]
        exact skipWs_not_ws hcws
      rw [show printJson (.arr (x :: xs)) ++ rest =
          '[' :: (printItems (x :: xs) ++ ']' :: rest) by simp [printJson]]
      rw [pv_lbrack_cons f _ c _ hscrut, if_neg hcne, hitems, Option.map_some']
  | .obj [], fuel, rest, hw, hr => by
      obtain ⟨f, rfl⟩ : ∃ f, fuel = f + 1 :=
        ⟨fuel - 1, by have := jsonWeight_pos (.obj []); omega⟩
      exact rfl
  | .obj ((k, v) :: fs), fuel, rest, hw, hr => by
      obtain ⟨f, rfl⟩ : ∃ f, fuel = f + 1 :=
        ⟨fuel - 1, by have := jsonWeight_pos (.obj ((k, v) :: fs)); omega⟩
      have hwf : jsonWeightFields ((k, v) :: fs) ≤ f := by
        have h2 : jsonWeight (.obj ((k, v) :: fs)) =
          1 + jsonWeightFields ((k, v) :: fs) := rfl
        omega
      have hfields := parseFields_print ((k, v) :: fs) f rest (by simp) hwf
      obtain ⟨t, ht⟩ : ∃ t, printFields ((k, v) :: fs) = '"' :: t := by
        cases fs
        · exact ⟨_, rfl⟩
        · exact ⟨_, rfl⟩
      have hscrut : skipWs (printFields ((k, v) :: fs) ++ '\x7d' :: rest) =
          '"' :: (t ++ '\x7d' :: rest) := by
        rw [ht]
        simp only [List.cons_append]
        exact skipWsC '"' (by decide) _
      rw [show printJson (.obj ((k, v) :: fs)) ++ rest =
          '\x7b' :: (printFields ((k, v) :: fs) ++ '\x7d' :: rest) by simp [printJson]]
      rw [pv_lbrace_cons f _ '"' _ hscrut, if_neg (by decide), hscrut,
        show '"' :: (t ++ '\x7d' :: rest) = printFields ((k, v) :: fs) ++ '\x7d' :: rest by
          rw [ht]; simp only [List.cons_append],
        hfields, Option.map_some']

theorem parseItems_print : ∀ (xs : List Json) (fuel : Nat) (rest : List Char),
    xs ≠ [] → jsonWeightItems xs ≤ fuel →
    parseItems fuel (printItems xs ++ ']' :: rest) = some (xs, rest)
  | [], _, _, hne, _ => absurd rfl hne
  | [x], fuel, rest, hne, hw => by
      have hw1 : 1 + jsonWeight x + 0 ≤ fuel := by
        rw [show (1 + jsonWeight x + 0) = jsonWeightItems [x] from rfl]
        exact hw
      obtain ⟨f, rfl⟩ : ∃ f, fuel = f + 1 := ⟨fuel - 1, by omega⟩
      have hv := parseValue_print x f (']' :: rest) (by omega) (nds_cons _ (by decide))
      rw [show printItems [x] ++ ']' :: rest = printJson x ++ ']' :: rest from rfl]
      rw [pi_cons f _ x (']' :: rest) ']' rest hv (skipWsC ']' (by decide) rest),
        if_neg (by decide), if_pos rfl]
  | x :: y :: ys, fuel, rest, hne, hw => by
      have hw1 : 1 + jsonWeight x + jsonWeightItems (y :: ys) ≤ fuel := by
        rw [show (1 + jsonWeight x + jsonWeightItems (y :: ys)) =
          jsonWeightItems (x :: y :: ys) from rfl]
        exact hw
      obtain ⟨f, rfl⟩ : ∃ f, fuel = f + 1 := ⟨fuel - 1, by omega⟩
      have hv := parseValue_print x f
        (',' :: (printItems (y :: ys) ++ ']' :: rest)) (by omega) (nds_cons _ (by decide))
      have hrec := parseItems_print (y :: ys) f rest (by simp) (by omega)
      rw [show printItems (x :: y :: ys) ++ ']' :: rest =
          printJson x ++ (',' :: (printItems (y :: ys) ++ ']' :: rest)) by
        simp [printItems]]
      rw [pi_cons f _ x _ ',' _ hv (skipWsC ',' (by decide) _), if_pos rfl, hrec,
        Option.map_some']

theorem parseFields_print : ∀ (fs : List (String × Json)) (fuel : Nat) (rest : List Char),
    fs ≠ [] → jsonWeightFields fs ≤ fuel →
    parseFields fuel (printFields fs ++ '\x7d' :: rest) = some (fs, rest)
  | [], _, _, hne, _ => absurd rfl hne
  | [(k, v)], fuel, rest, hne, hw => by
      have hw1 : 2 + k.data.length + jsonWeight v + 0 ≤ fuel := by
        rw [show (2 + k.data.length + jsonWeight v + 0) = jsonWeightFields [(k, v)]
          from rfl]
        exact hw
      obtain ⟨f, rfl⟩ : ∃ f, fuel = f + 1 := ⟨fuel - 1, by omega⟩
      have hk := parseStrBody_esc k.data f
        (':' :: (printJson v ++ '\x7d' :: rest)) (by omega)
      have hv := parseValue_print v f ('\x7d' :: rest) (by omega) (nds_cons _ (by decide))
      rw [show printFields [(k, v)] ++ '\x7d' :: rest =
          '"' :: (k.data.flatMap escChar ++
            '"' :: (':' :: (printJson v ++ '\x7d' :: rest))) by
        simp [printFields, strLitChars]]
      rw [pf_cons f _ k.data _ _ v _ '\x7d' rest hk (skipWsC ':' (by decide) _) hv
          (skipWsC '\x7d' (by decide) _),
        if_neg (by decide), if_pos rfl]
  | (k, v) :: (k2, v2) :: fs, fuel, rest, hne, hw => by
      have hw1 : 2 + k.data.length + jsonWeight v +
          jsonWeightFields ((k2, v2) :: fs) ≤ fuel := by
        rw [show (2 + k.data.length + jsonWeight v + jsonWeightFields ((k2, v2) :: fs)) =
          jsonWeightFields ((k, v) :: (k2, v2) :: fs) from rfl]
        exact hw
      obtain ⟨f, rfl⟩ : ∃ f, fuel = f + 1 := ⟨fuel - 1, by omega⟩
      have hk := parseStrBody_esc k.data f
        (':' :: (printJson v ++
          ',' :: (printFields ((k2, v2) :: fs) ++ '\x7d' :: rest))) (by omega)
      have hv := parseValue_print v f
        (',' :: (printFields ((k2, v2) :: fs) ++ '\x7d' :: rest)) (by omega)
        (nds_cons _ (by decide))
      have hrec := parseFields_print ((k2, v2) :: fs) f rest (by simp) (by omega)
      obtain ⟨t2, ht2⟩ : ∃ t2, printFields ((k2, v2) :: fs) = '"' :: t2 := by
        cases fs
        · exact ⟨_, rfl⟩
        · exact ⟨_, rfl⟩
      have hskip : skipWs (printFields ((k2, v2) :: fs) ++ '\x7d' :: rest) =
          printFields ((k2, v2) :: fs) ++ '\x7d' :: rest := by
        rw [ht2]
        simp only [List.cons_append]
        exact skipWsC '"' (by decide) _
      rw [show printFields ((k, v) :: (k2, v2) :: fs) ++ '\x7d' :: rest =
          '"' :: (k.data.flatMap escChar ++
            '"' :: (':' :: (printJson v ++
              ',' :: (printFields ((k2, v2) :: fs) ++ '\x7d' :: rest)))) by
        simp [printFields, strLitChars]]
      rw [pf_cons f _ k.data _ _ v _ ',' _ hk (skipWsC ':' (by decide) _) hv
          (skipWsC ',' (by decide) _),
        if_pos rfl, hskip, hrec, Option.some_bind]

end

/-! ## Lemmas: the top-level JSON round trip -/

theorem jsonParse_stringify (v : Json) : jsonParse (jsonStringify v) = some v := by
  have hw : jsonWeight v ≤ 2 * (printJson v).length + 2 :=
    le_trans (jsonWeight_le v) (by omega)
  have h := parseValue_print v (2 * (printJson v).length + 2) [] hw (by rfl)
  rw [show printJson v ++ ([] : List Char) = printJson v by simp] at h
  unfold jsonParse jsonStringify
  rw [show (String.mk (printJson v)).data = printJson v from rfl,
    show (String.mk (printJson v)).length = (printJson v).length from rfl, h]
  rfl

/-! ## Lemmas: base64 round trip -/

theorem b64Val_b64Ch : ∀ n, n < 64 → b64Val (b64Ch n) = some n := by decide

theorem b64Ch_ne_pad : ∀ n, n < 64 → ¬b64Ch n = '=' := by decide

theorem b64Ch_not_ws : ∀ n, n < 64 → asciiWs (b64Ch n) = false := by decide

theorem b64Encode_no_ws : ∀ bs : List Nat, (∀ x ∈ bs, x < 256) →
    ∀ ch ∈ b64EncodeBytes bs, asciiWs ch = false
  | [], _ => by simp [b64EncodeBytes]
  | [a], h => by
      have ha : a < 256 := h a (by simp)
      simp only [b64EncodeBytes, List.mem_cons, List.mem_singleton]
      intro ch hch
      rcases hch with h1 | h1 | h1 | h1
      · rw [h1]; exact b64Ch_not_ws _ (by omega)
      · rw [h1]; exact b64Ch_not_ws _ (by omega)
      · rw [h1]; rfl
      · simp at h1
        rw [h1]; rfl
  | [a, b], h => by
      have ha : a < 256 := h a (by simp)
      have hb : b < 256 := h b (by simp)
      simp only [b64EncodeBytes, List.mem_cons, List.mem_singleton]
      intro ch hch
      rcases hch with h1 | h1 | h1 | h1
      · rw [h1]; exact b64Ch_not_ws _ (by omega)
      · rw [h1]; exact b64Ch_not_ws _ (by omega)
      · rw [h1]; exact b64Ch_not_ws _ (by omega)
      · simp at h1
        rw [h1]; rfl
  | a :: b :: c :: rest, h => by
      have ha : a < 256 := h a (by simp)
      have hb : b < 256 := h b (by simp)
      have hc : c < 256 := h c (by simp)
      have ih := b64Encode_no_ws rest (fun x hx => h x (by simp [hx]))
      rw [show b64EncodeBytes (a :: b :: c :: rest) =
        b64Ch (a / 4) :: b64Ch (a % 4 * 16 + b / 16) :: b64Ch (b % 16 * 4 + c / 64) ::
          b64Ch (c % 64) :: b64EncodeBytes rest from rfl]
      intro ch hch
      simp only [List.mem_cons] at hch
      rcases hch with h1 | h1 | h1 | h1 | h1
      · rw [h1]; exact b64Ch_not_ws _ (by omega)
      · rw [h1]; exact b64Ch_not_ws _ (by omega)
      · rw [h1]; exact b64Ch_not_ws _ (by omega)
      · rw [h1]; exact b64Ch_not_ws _ (by omega)
      · exact ih ch h1

theorem b64Encode_len : ∀ bs : List Nat, (b64EncodeBytes bs).length % 4 = 0
  | [] => rfl
  | [a] => by
      have h4 : (b64EncodeBytes [a]).length = 4 := rfl
      omega
  | [a, b] => by
      have h4 : (b64EncodeBytes [a, b]).length = 4 := rfl
      omega
  | a :: b :: c :: rest => by
      have ih := b64Encode_len rest
      have h4 : (b64EncodeBytes (a :: b :: c :: rest)).length =
          4 + (b64EncodeBytes rest).length := by
        rw [show b64EncodeBytes (a :: b :: c :: rest) =
          b64Ch (a / 4) :: b64Ch (a % 4 * 16 + b / 16) :: b64Ch (b % 16 * 4 + c / 64) ::
            b64Ch (c % 64) :: b64EncodeBytes rest from rfl]
        simp only [List.length_cons]
        omega
      omega

theorem b64Encode_ne_nil : ∀ (x : Nat) (xs : List Nat), b64EncodeBytes (x :: xs) ≠ []
  | x, [] => by
      rw [show b64EncodeBytes [x] =
        [b64Ch (x / 4), b64Ch (x % 4 * 16), '=', '='] from rfl]
      simp
  | x, [y] => by
      rw [show b64EncodeBytes [x, y] =
        [b64Ch (x / 4), b64Ch (x % 4 * 16 + y / 16), b64Ch (y % 16 * 4), '='] from rfl]
      simp
  | x, y :: z :: rest => by
      rw [show b64EncodeBytes (x :: y :: z :: rest) =
        b64Ch (x / 4) :: b64Ch (x % 4 * 16 + y / 16) :: b64Ch (y % 16 * 4 + z / 64) ::
          b64Ch (z % 64) :: b64EncodeBytes rest from rfl]
      simp

theorem stripPad_append (A E : List Char) (h : 2 ≤ E.length) :
    stripPad (A ++ E) = A ++ stripPad E := by
  obtain ⟨e1, e2, E2, hE⟩ : ∃ e1 e2 E2, E.reverse = e1 :: e2 :: E2 := by
    match hrev : E.reverse with
    | [] =>
      have hl : E.length = 0 := by simpa using congrArg List.length hrev
      omega
    | [x] =>
      have hl : E.length = 1 := by simpa using congrArg List.length hrev
      omega
    | x :: y :: r => exact ⟨x, y, r, rfl⟩
  have hrevA : (A ++ E).reverse = e1 :: e2 :: (E2 ++ A.reverse) := by
    rw [List.reverse_append, hE]
    simp
  have hEorig : E = (e1 :: e2 :: E2).reverse := by
    rw [← hE, List.reverse_reverse]
  simp only [stripPad, hrevA, hE]
  by_cases h1 : e1 = '=' <;> by_cases h2 : e2 = '=' <;>
    simp [h1, h2, hEorig]

theorem b64_roundtrip : ∀ bs : List Nat, (∀ x ∈ bs, x < 256) →
    b64DecodeChars (stripPad (b64EncodeBytes bs)) = some bs ∧
      (stripPad (b64EncodeBytes bs)).length % 4 ≠ 1
  | [], _ => by
      constructor
      · rfl
      · have h0 : (stripPad (b64EncodeBytes [])).length = 0 := rfl
        omega
  | [a], h => by
      have ha : a < 256 := h a (by simp)
      have hv1 := b64Val_b64Ch (a / 4) (by omega)
      have hv2 := b64Val_b64Ch (a % 4 * 16) (by omega)
      have hsp : stripPad (b64EncodeBytes [a]) =
          [b64Ch (a / 4), b64Ch (a % 4 * 16)] := rfl
      rw [hsp]
      constructor
      · rw [show b64DecodeChars [b64Ch (a / 4), b64Ch (a % 4 * 16)] =
          (b64Val (b64Ch (a / 4))).bind (fun v1 =>
            (b64Val (b64Ch (a % 4 * 16))).bind (fun v2 =>
              some [v1 * 4 + v2 / 16])) from rfl, hv1, Option.some_bind, hv2,
          Option.some_bind]
        rw [show a / 4 * 4 + a % 4 * 16 / 16 = a by omega]
      · have h2 : ([b64Ch (a / 4), b64Ch (a % 4 * 16)] : List Char).length = 2 := rfl
        omega
  | [a, b], h => by
      have ha : a < 256 := h a (by simp)
      have hb : b < 256 := h b (by simp)
      have hv1 := b64Val_b64Ch (a / 4) (by omega)
      have hv2 := b64Val_b64Ch (a % 4 * 16 + b / 16) (by omega)
      have hv3 := b64Val_b64Ch (b % 16 * 4) (by omega)
      have hne := b64Ch_ne_pad (b % 16 * 4) (by omega)
      have hsp : stripPad (b64EncodeBytes [a, b]) =
          [b64Ch (a / 4), b64Ch (a % 4 * 16 + b / 16), b64Ch (b % 16 * 4)] := by
        simp only [stripPad]
        rw [show (b64EncodeBytes [a, b]).reverse =
          '=' :: b64Ch (b % 16 * 4) ::
            [b64Ch (a % 4 * 16 + b / 16), b64Ch (a / 4)] from rfl]
        simp [hne]
      rw [hsp]
      constructor
      · rw [show b64DecodeChars
            [b64Ch (a / 4), b64Ch (a % 4 * 16 + b / 16), b64Ch (b % 16 * 4)] =
          (b64Val (b64Ch (a / 4))).bind (fun v1 =>
            (b64Val (b64Ch (a % 4 * 16 + b / 16))).bind (fun v2 =>
              (b64Val (b64Ch (b % 16 * 4))).bind (fun v3 =>
                some [v1 * 4 + v2 / 16, v2 % 16 * 16 + v3 / 4]))) from rfl,
          hv1, Option.some_bind, hv2, Option.some_bind, hv3, Option.some_bind]
        rw [show a / 4 * 4 + (a % 4 * 16 + b / 16) / 16 = a by omega,
          show (a % 4 * 16 + b / 16) % 16 * 16 + b % 16 * 4 / 4 = b by omega]
      · have h3 : ([b64Ch (a / 4), b64Ch (a % 4 * 16 + b / 16),
            b64Ch (b % 16 * 4)] : List Char).length = 3 := rfl
        omega
  | a :: b :: c :: rest, h => by
      have ha : a < 256 := h a (by simp)
      have hb : b < 256 := h b (by simp)
      have hc : c < 256 := h c (by simp)
      have hv1 := b64Val_b64Ch (a / 4) (by omega)
      have hv2 := b64Val_b64Ch (a % 4 * 16 + b / 16) (by omega)
      have hv3 := b64Val_b64Ch (b % 16 * 4 + c / 64) (by omega)
      have hv4 := b64Val_b64Ch (c % 64) (by omega)
      have hx1 : a / 4 * 4 + (a % 4 * 16 + b / 16) / 16 = a := by omega
      have hx2 : (a % 4 * 16 + b / 16) % 16 * 16 + (b % 16 * 4 + c / 64) / 4 = b := by
        omega
      have hx3 : (b % 16 * 4 + c / 64) % 4 * 64 + c % 64 = c := by omega
      match rest with
      | [] =>
        have hne := b64Ch_ne_pad (c % 64) (by omega)
        have hsp : stripPad (b64EncodeBytes [a, b, c]) =
            [b64Ch (a / 4), b64Ch (a % 4 * 16 + b / 16), b64Ch (b % 16 * 4 + c / 64),
              b64Ch (c % 64)] := by
          simp only [stripPad]
          rw [show (b64EncodeBytes [a, b, c]).reverse =
            b64Ch (c % 64) :: b64Ch (b % 16 * 4 + c / 64) ::
              [b64Ch (a % 4 * 16 + b / 16), b64Ch (a / 4)] from rfl]
          simp [hne]
          rfl
        rw [hsp]
        constructor
        · rw [show b64DecodeChars
              [b64Ch (a / 4), b64Ch (a % 4 * 16 + b / 16), b64Ch (b % 16 * 4 + c / 64),
                b64Ch (c % 64)] =
            (b64Val (b64Ch (a / 4))).bind (fun v1 =>
              (b64Val (b64Ch (a % 4 * 16 + b / 16))).bind (fun v2 =>
                (b64Val (b64Ch (b % 16 * 4 + c / 64))).bind (fun v3 =>
                  (b64Val (b64Ch (c % 64))).bind (fun v4 =>
                    (b64DecodeChars []).bind (fun bs =>
                      some ((v1 * 4 + v2 / 16) :: (v2 % 16 * 16 + v3 / 4) ::
                        (v3 % 4 * 64 + v4) :: bs)))))) from rfl,
            hv1, Option.some_bind, hv2, Option.some_bind, hv3, Option.some_bind,
            hv4, Option.some_bind,
            show b64DecodeChars [] = some [] from rfl, Option.some_bind]
          rw [hx1, hx2, hx3]
        · have h4 : ([b64Ch (a / 4), b64Ch (a % 4 * 16 + b / 16),
              b64Ch (b % 16 * 4 + c / 64), b64Ch (c % 64)] : List Char).length = 4 := rfl
          omega
      | r0 :: rest2 =>
        have ih := b64_roundtrip (r0 :: rest2) (fun x hx => h x (by simp at hx ⊢; tauto))
        have hElen0 : (b64EncodeBytes (r0 :: rest2)).length % 4 = 0 :=
          b64Encode_len (r0 :: rest2)
        have hEnn : b64EncodeBytes (r0 :: rest2) ≠ [] := b64Encode_ne_nil r0 rest2
        have hElen1 : 1 ≤ (b64EncodeBytes (r0 :: rest2)).length :=
          List.length_pos.mpr hEnn
        have hsplit : b64EncodeBytes (a :: b :: c :: r0 :: rest2) =
            [b64Ch (a / 4), b64Ch (a % 4 * 16 + b / 16), b64Ch (b % 16 * 4 + c / 64),
              b64Ch (c % 64)] ++ b64EncodeBytes (r0 :: rest2) := rfl
        have hsp := stripPad_append
          [b64Ch (a / 4), b64Ch (a % 4 * 16 + b / 16), b64Ch (b % 16 * 4 + c / 64),
            b64Ch (c % 64)] (b64EncodeBytes (r0 :: rest2)) (by omega)
        rw [hsplit, hsp]
        constructor
        · rw [show ([b64Ch (a / 4), b64Ch (a % 4 * 16 + b / 16),
              b64Ch (b % 16 * 4 + c / 64), b64Ch (c % 64)] ++
                stripPad (b64EncodeBytes (r0 :: rest2))) =
            b64Ch (a / 4) :: b64Ch (a % 4 * 16 + b / 16) ::
              b64Ch (b % 16 * 4 + c / 64) :: b64Ch (c % 64) ::
                stripPad (b64EncodeBytes (r0 :: rest2)) from rfl]
          rw [show b64DecodeChars (b64Ch (a / 4) :: b64Ch (a % 4 * 16 + b / 16) ::
              b64Ch (b % 16 * 4 + c / 64) :: b64Ch (c % 64) ::
                stripPad (b64EncodeBytes (r0 :: rest2))) =
            (b64Val (b64Ch (a / 4))).bind (fun v1 =>
              (b64Val (b64Ch (a % 4 * 16 + b / 16))).bind (fun v2 =>
                (b64Val (b64Ch (b % 16 * 4 + c / 64))).bind (fun v3 =>
                  (b64Val (b64Ch (c % 64))).bind (fun v4 =>
                    (b64DecodeChars (stripPad (b64EncodeBytes (r0 :: rest2)))).bind
                      (fun bs =>
                        some ((v1 * 4 + v2 / 16) :: (v2 % 16 * 16 + v3 / 4) ::
                          (v3 % 4 * 64 + v4) :: bs)))))) from rfl,
            hv1, Option.some_bind, hv2, Option.some_bind, hv3, Option.some_bind,
            hv4, Option.some_bind, ih.1, Option.some_bind]
          rw [hx1, hx2, hx3]
        · have h4 : ([b64Ch (a / 4), b64Ch (a % 4 * 16 + b / 16),
              b64Ch (b % 16 * 4 + c / 64), b64Ch (c % 64)] ++
                stripPad (b64EncodeBytes (r0 :: rest2))).length =
              4 + (stripPad (b64EncodeBytes (r0 :: rest2))).length := by
            simp
            omega
          have := ih.2
          omega

/-! ## Lemmas: the cursor codec round trip -/

theorem parseCursor_createCursor (v : Json)
    (h : ∀ c ∈ (jsonStringify v).data, c.toNat ≤ 255) :
    (createCursor v).bind parseCursor = some v := by
  have hall : (jsonStringify v).data.all (fun c => c.toNat ≤ 255) = true := by
    rw [List.all_eq_true]
    intro c hc
    simpa using h c hc
  have hbt : btoa (jsonStringify v) =
      some ⟨b64EncodeBytes ((jsonStringify v).data.map Char.toNat)⟩ := by
    simp [btoa, hall]
  have hbytes : ∀ x ∈ (jsonStringify v).data.map Char.toNat, x < 256 := by
    intro x hx
    simp only [List.mem_map] at hx
    obtain ⟨c, hc, rfl⟩ := hx
    have := h c hc
    omega
  have hrt := b64_roundtrip ((jsonStringify v).data.map Char.toNat) hbytes
  have hnws := b64Encode_no_ws ((jsonStringify v).data.map Char.toNat) hbytes
  have hfil : (b64EncodeBytes ((jsonStringify v).data.map Char.toNat)).filter
      (fun c => !asciiWs c) = b64EncodeBytes ((jsonStringify v).data.map Char.toNat) := by
    apply List.filter_eq_self.mpr
    intro ch hch
    simp [hnws ch hch]
  have hlen := b64Encode_len ((jsonStringify v).data.map Char.toNat)
  have hmap : ((jsonStringify v).data.map Char.toNat).map Char.ofNat =
      (jsonStringify v).data := by
    rw [List.map_map]
    have hcongr : ∀ c ∈ (jsonStringify v).data,
        (Char.ofNat ∘ Char.toNat) c = id c := by
      intro c hc
      have hle := h c hc
      exact ofNat_toNat_ch (by omega) rfl
    rw [List.map_congr_left hcongr, List.map_id]
  rw [show createCursor v = btoa (jsonStringify v) from rfl, hbt, Option.some_bind]
  show (atob ⟨b64EncodeBytes ((jsonStringify v).data.map Char.toNat)⟩).bind jsonParse =
    some v
  rw [show atob ⟨b64EncodeBytes ((jsonStringify v).data.map Char.toNat)⟩ =
      (let l := (b64EncodeBytes ((jsonStringify v).data.map Char.toNat)).filter
        (fun c => !asciiWs c)
      let l2 := if l.length % 4 = 0 then stripPad l else l
      if l2.length % 4 = 1 then none
      else (b64DecodeChars l2).map (fun bs => (⟨bs.map Char.ofNat⟩ : String))) from rfl]
  simp only [hfil]
  rw [if_pos hlen, if_neg hrt.2, hrt.1, Option.map_some', Option.some_bind, hmap]
  rw [show (⟨(jsonStringify v).data⟩ : String) = jsonStringify v from rfl]
  exact jsonParse_stringify v

/-! ## Lemmas: the lowercase hex rendering of `generateSignature` -/

theorem sha256_bytes_lt (msg : List Nat) : ∀ b ∈ sha256 msg, b < 256 := by
  intro b hb
  unfold sha256 at hb
  simp only [List.mem_flatMap] at hb
  obtain ⟨w, -, hw⟩ := hb
  simp only [List.mem_cons, List.not_mem_nil, or_false] at hw
  rcases hw with rfl | rfl | rfl | rfl <;> omega

theorem hmac_bytes_lt (key msg : List Nat) : ∀ b ∈ hmacSha256 key msg, b < 256 := by
  intro b hb
  unfold hmacSha256 at hb
  exact sha256_bytes_lt _ b hb

set_option maxRecDepth 4000 in
theorem padStart2_hex : ∀ b : Nat, b < 256 →
    padStart2 ⟨natHexDigits b⟩ = ⟨[hexCh (b / 16), hexCh (b % 16)]⟩ := by decide

theorem foldl_append_data (l : List String) (acc : String) :
    (l.foldl (fun r s => r ++ s) acc).data = acc.data ++ l.flatMap String.data := by
  induction l generalizing acc with
  | nil => simp [List.foldl_nil]
  | cons s t ih =>
      rw [List.foldl_cons, ih]
      rw [show (acc ++ s).data = acc.data ++ s.data from rfl]
      simp [List.flatMap_cons, List.append_assoc]

theorem join_data (l : List String) : (String.join l).data = l.flatMap String.data := by
  rw [show String.join l = l.foldl (fun r s => r ++ s) "" from rfl]
  rw [foldl_append_data]
  simp [show ("" : String).data = [] from rfl]

theorem hexJoin_data (bytes : List Nat) (h : ∀ b ∈ bytes, b < 256) :
    (String.join (bytes.map (fun b => padStart2 ⟨natHexDigits b⟩))).data
      = bytes.flatMap (fun b => [hexCh (b / 16), hexCh (b % 16)]) := by
  rw [join_data]
  revert h
  induction bytes with
  | nil => intro h; rfl
  | cons b t ih =>
      intro h
      rw [List.map_cons, List.flatMap_cons, List.flatMap_cons]
      rw [ih (fun x hx => h x (List.mem_cons_of_mem b hx))]
      rw [padStart2_hex b (h b (List.mem_cons_self b t))]

/-- C1: for every `appKey`, `appSecret`, `timestamp` and `body`,
`generateSignature` returns the lowercase hexadecimal digest of
HMAC-SHA256 keyed by the UTF-8 bytes of `appSecret` applied to the UTF-8
bytes of the concatenation `appKey ++ decimal(timestamp) ++ body`; and it
is deterministic: identical inputs always yield the identical signature
string. -/
theorem C1_generateSignature_hex (appKey appSecret : String) (timestamp : Nat)
    (body : String) :
    generateSignature appKey appSecret timestamp body =
      lowercaseHexDigest (hmacSha256 (utf8Encode appSecret)
        (utf8Encode (appKey ++ (⟨natDigits timestamp⟩ : String) ++ body))) ∧
    (∀ k2 s2 t2 b2, appKey = k2 → appSecret = s2 → timestamp = t2 → body = b2 →
      generateSignature appKey appSecret timestamp body =
        generateSignature k2 s2 t2 b2) := by
  constructor
  · exact String.ext (hexJoin_data
      (hmacSha256 (utf8Encode appSecret)
        (utf8Encode (appKey ++ (⟨natDigits timestamp⟩ : String) ++ body)))
      (hmac_bytes_lt _ _))
  · intro k2 s2 t2 b2 hk hs ht hb
    subst hk; subst hs; subst ht; subst hb
    rfl

/-- Instance of C1 at a concrete input, every hypothesis discharged. -/
theorem C1_generateSignature_hex_witness :
    generateSignature "myKey" "mySecret" 1700000000 "" =
      lowercaseHexDigest (hmacSha256 (utf8Encode "mySecret")
        (utf8Encode ("myKey" ++ (⟨natDigits 1700000000⟩ : String) ++ ""))) ∧
    generateSignature "myKey" "mySecret" 1700000000 "" =
      generateSignature "myKey" "mySecret" 1700000000 "" :=
  ⟨(C1_generateSignature_hex "myKey" "mySecret" 1700000000 "").1,
   (C1_generateSignature_hex "myKey" "mySecret" 1700000000 "").2
     "myKey" "mySecret" 1700000000 "" rfl rfl rfl rfl⟩

/-- C2 (amended): the cursor codec round-trips every JSON value whose
serialization stays within Latin-1, the precondition under which `btoa`
succeeds: `parseCursor (createCursor v) = some v`.  Without that
restriction the claim fails, because `btoa` throws on code points above
255 (see the counterexample). -/
theorem C2_cursor_roundtrip (v : Json)
    (h : ∀ c ∈ (jsonStringify v).data, c.toNat ≤ 255) :
    (createCursor v).bind parseCursor = some v :=
  parseCursor_createCursor v h

/-- Instance of C2 at a concrete pagination state, the Latin-1 hypothesis
discharged by evaluation. -/
theorem C2_cursor_roundtrip_witness :
    (createCursor (.obj [("pageNum", .num 2), ("label", .str "x")])).bind parseCursor =
      some (.obj [("pageNum", .num 2), ("label", .str "x")]) :=
  C2_cursor_roundtrip (.obj [("pageNum", .num 2), ("label", .str "x")]) (by decide)

/-- Counterexample to C2 as stated: a JSON-serializable state containing
a non-Latin-1 character makes `createCursor` throw (`btoa` rejects code
points above 255), so `parseCursor (createCursor s) = s` fails for it. -/
theorem C2_cursor_non_latin1 :
    createCursor (.obj [("label", .str "€")]) = none ∧
    (createCursor (.obj [("label", .str "€")])).bind parseCursor ≠
      some (.obj [("label", .str "€")]) :=
  ⟨rfl, fun h => Option.noConfusion h⟩

/-- C3 is a code bug: the handlers build the next cursor state as the
spread `{ pageNum: current + 1, ...cursorData }`, so a `pageNum`
already stored in the decoded cursor state overwrites the update.  With
the prior state `{ pageNum: 2 }` and `current = 2` the next state
keeps `pageNum = 2` instead of the claimed `current + 1 = 3`; the update
only survives when the prior state lacks `pageNum`. -/
theorem C3_nextCursor_pageNum_stuck :
    nextCursorState [("pageNum", .num 2)] 2 = [("pageNum", .num 2)] ∧
    cursorPageNum (nextCursorState [("pageNum", .num 2)] 2) = 2 ∧
    nextCursorState [("label", .str "x")] 2 = [("pageNum", .num 3), ("label", .str "x")] ∧
    ((2 : Int) + 1 = 3 ∧ ¬((2 : Int) + 1 = 2)) :=
  ⟨rfl, rfl, rfl, by decide⟩

/-- C4 (amended): a 2xx envelope whose `code` is present and differs from
200 raises the API error carrying that `code` and `result.msg ||
"Unknown error"`; the default applies not only when `msg` is absent but
for every falsy `msg` (the empty string in particular), and a present
truthy string `msg` is carried verbatim. -/
theorem C4_api_error_msg (dm nm : String → String) (r : HttpResponse)
    (fs : List (String × Json)) (c : Json)
    (h1 : respOk r = true) (h2 : jsonParse r.body = some (.obj fs))
    (h3 : jsGetProp (.obj fs) "code" = some c) (h4 : c ≠ Json.num 200) :
    classifyResponse dm nm r = .error (.api c (msgOrDefault (.obj fs))) ∧
    makeRequestResult dm nm r = .error ("Request failed: " ++
      ("API Error [" ++ jsToString c ++ "]: " ++ msgOrDefault (.obj fs))) ∧
    (∀ m : String, jsGetProp (.obj fs) "msg" = some (.str m) → m ≠ "" →
      msgOrDefault (.obj fs) = m) ∧
    (jsGetProp (.obj fs) "msg" = none → msgOrDefault (.obj fs) = "Unknown error") ∧
    (jsGetProp (.obj fs) "msg" = some (.str "") → msgOrDefault (.obj fs) = "Unknown error") := by
  have hb : Json.beq c (Json.num 200) = false := by
    cases hbc : Json.beq c (Json.num 200)
    · rfl
    · exact absurd ((Json.beq_iff c (Json.num 200)).1 hbc) h4
  have hcls : classifyResponse dm nm r = .error (.api c (msgOrDefault (.obj fs))) := by
    simp only [classifyResponse, h1, Bool.not_true, Bool.false_eq_true, if_false, h2, h3, hb]
  refine ⟨hcls, ?_, ?_, ?_, ?_⟩
  · simp only [makeRequestResult, hcls]
    rfl
  · intro m hm hne
    simp only [msgOrDefault, hm]
    rw [if_pos]
    · rfl
    · simp [jsTruthy, hne]
  · intro hm
    simp only [msgOrDefault, hm]
  · intro hm
    simp only [msgOrDefault, hm]
    rw [if_neg]
    simp [jsTruthy]

/-- Instance of C4 on the envelope of the claim with `msg = "boom"`,
every hypothesis discharged by evaluation. -/
theorem C4_api_error_msg_witness :
    classifyResponse (fun _ => "") (fun _ => "")
        ⟨200, "OK", jsonStringify (.obj [("code", .num 500), ("msg", .str "boom")])⟩ =
      .error (.api (.num 500) (msgOrDefault (.obj [("code", .num 500), ("msg", .str "boom")]))) ∧
    makeRequestResult (fun _ => "") (fun _ => "")
        ⟨200, "OK", jsonStringify (.obj [("code", .num 500), ("msg", .str "boom")])⟩ =
      .error ("Request failed: " ++ ("API Error [" ++ jsToString (Json.num 500) ++ "]: " ++
        msgOrDefault (.obj [("code", .num 500), ("msg", .str "boom")]))) ∧
    (∀ m : String,
      jsGetProp (.obj [("code", .num 500), ("msg", .str "boom")]) "msg" = some (.str m) →
      m ≠ "" → msgOrDefault (.obj [("code", .num 500), ("msg", .str "boom")]) = m) ∧
    (jsGetProp (.obj [("code", .num 500), ("msg", .str "boom")]) "msg" = none →
      msgOrDefault (.obj [("code", .num 500), ("msg", .str "boom")]) = "Unknown error") ∧
    (jsGetProp (.obj [("code", .num 500), ("msg", .str "boom")]) "msg" = some (.str "") →
      msgOrDefault (.obj [("code", .num 500), ("msg", .str "boom")]) = "Unknown error") :=
  C4_api_error_msg (fun _ => "") (fun _ => "")
    ⟨200, "OK", jsonStringify (.obj [("code", .num 500), ("msg", .str "boom")])⟩
    [("code", .num 500), ("msg", .str "boom")] (.num 500) rfl rfl rfl (by simp)

/-- Counterexample to C4 as stated: the envelope with `code` 500 and the
present but empty `msg` is reported with the default `"Unknown error"`,
not with the envelope message, because `result.msg || "Unknown error"`
replaces every falsy `msg`, not only an absent one. -/
theorem C4_empty_msg_default :
    classifyResponse (fun _ => "") (fun _ => "")
        ⟨200, "OK", jsonStringify (.obj [("code", .num 500), ("msg", .str "")])⟩ =
      .error (.api (.num 500) "Unknown error") ∧
    jsGetProp (.obj [("code", .num 500), ("msg", .str "")]) "msg" = some (.str "") ∧
    ("Unknown error" : String) ≠ "" :=
  ⟨rfl, rfl, by decide⟩

/-- C5: a parsed 2xx value that is a non-null object without a `code`
field is treated as success: `makeRequest` returns the synthesized
envelope with `code` 200, `msg` `"OK"` and the value unchanged under
`data`. -/
theorem C5_synthesized_envelope (dm nm : String → String) (r : HttpResponse) (v : Json)
    (h1 : respOk r = true) (h2 : jsonParse r.body = some v)
    (h3 : jsTypeofObject v = true) (h4 : v ≠ Json.null)
    (h5 : jsGetProp v "code" = none) :
    classifyResponse dm nm r =
      .ok (.obj [("code", .num 200), ("msg", .str "OK"), ("data", v)]) ∧
    makeRequestResult dm nm r =
      .ok (.obj [("code", .num 200), ("msg", .str "OK"), ("data", v)]) := by
  have hcls : classifyResponse dm nm r =
      .ok (.obj [("code", .num 200), ("msg", .str "OK"), ("data", v)]) := by
    cases v with
    | null => exact absurd rfl h4
    | bool b => exact Bool.noConfusion h3
    | num n => exact Bool.noConfusion h3
    | str t => exact Bool.noConfusion h3
    | arr xs =>
        simp only [classifyResponse, h1, Bool.not_true, Bool.false_eq_true, if_false, h2, h5,
          jsTypeofObject, if_true]
    | obj fs =>
        simp only [classifyResponse, h1, Bool.not_true, Bool.false_eq_true, if_false, h2, h5,
          jsTypeofObject, if_true]
  exact ⟨hcls, by simp only [makeRequestResult, hcls]⟩

/-- Instance of C5 on the envelope-less object of the claim, every
hypothesis discharged by evaluation. -/
theorem C5_synthesized_envelope_witness :
    classifyResponse (fun _ => "") (fun _ => "")
        ⟨200, "OK", jsonStringify (.obj [("current", .num 1), ("pages", .num 1), ("list", .arr [])])⟩ =
      .ok (.obj [("code", .num 200), ("msg", .str "OK"),
        ("data", .obj [("current", .num 1), ("pages", .num 1), ("list", .arr [])])]) ∧
    makeRequestResult (fun _ => "") (fun _ => "")
        ⟨200, "OK", jsonStringify (.obj [("current", .num 1), ("pages", .num 1), ("list", .arr [])])⟩ =
      .ok (.obj [("code", .num 200), ("msg", .str "OK"),
        ("data", .obj [("current", .num 1), ("pages", .num 1), ("list", .arr [])])]) :=
  C5_synthesized_envelope (fun _ => "") (fun _ => "")
    ⟨200, "OK", jsonStringify (.obj [("current", .num 1), ("pages", .num 1), ("list", .arr [])])⟩
    (.obj [("current", .num 1), ("pages", .num 1), ("list", .arr [])])
    rfl rfl rfl (fun h => Json.noConfusion h) rfl

/-- C6 (amended): a non-2xx HTTP status makes `makeRequest` throw the
transport error, and the message carries the status code and the status
text — but not the response body text, which is only logged (see the
counterexample). -/
theorem C6_http_error (dm nm : String → String) (r : HttpResponse)
    (h : respOk r = false) :
    classifyResponse dm nm r = .error (.http r.status r.statusText) ∧
    makeRequestResult dm nm r = .error ("Request failed: " ++
      ("HTTP Error: " ++ (⟨natDigits r.status⟩ : String) ++ " " ++ r.statusText)) := by
  have hcls : classifyResponse dm nm r = .error (.http r.status r.statusText) := by
    simp only [classifyResponse, h, Bool.not_false, if_true]
  exact ⟨hcls, by simp only [makeRequestResult, hcls]; rfl⟩

/-- Instance of C6 at a concrete 502 response, the hypothesis discharged
by evaluation. -/
theorem C6_http_error_witness :
    classifyResponse (fun _ => "") (fun _ => "")
        ⟨502, "Bad Gateway", "upstream exploded"⟩ =
      .error (.http 502 "Bad Gateway") ∧
    makeRequestResult (fun _ => "") (fun _ => "")
        ⟨502, "Bad Gateway", "upstream exploded"⟩ =
      .error ("Request failed: " ++
        ("HTTP Error: " ++ (⟨natDigits 502⟩ : String) ++ " " ++ "Bad Gateway")) :=
  C6_http_error (fun _ => "") (fun _ => "") ⟨502, "Bad Gateway", "upstream exploded"⟩ rfl

/-- Counterexample to C6 as stated: the thrown message for a 502 response
with body `"upstream exploded"` is exactly the status line, and the body
text occurs nowhere in it, so the error does not carry the response body
text. -/
theorem C6_body_not_carried :
    makeRequestResult (fun _ => "") (fun _ => "")
        ⟨502, "Bad Gateway", "upstream exploded"⟩ =
      .error "Request failed: HTTP Error: 502 Bad Gateway" ∧
    hasSeg "upstream exploded".data
      "Request failed: HTTP Error: 502 Bad Gateway".data = false :=
  ⟨rfl, by decide⟩

/-- C7: `querySimMonthData` throws a validation error, before any request
body is produced, exactly when the trimmed `iccid` is empty, or `month`
is empty, or the trimmed `month` is not exactly six decimal digits; on
success the body carries the trimmed `iccid` and `month`. -/
theorem C7_month_validation (iccid month : String) :
    ((∃ e, querySimMonthData iccid month = .error e) ↔
      (jsTrim iccid = "" ∨ month = "" ∨
        ¬((jsTrim month).data.length = 6 ∧ (jsTrim month).data.all isDigitCh = true))) ∧
    (∀ b, querySimMonthData iccid month = .ok b →
      b = [("iccid", .str (jsTrim iccid)), ("month", .str (jsTrim month))]) := by
  unfold querySimMonthData
  split_ifs with hA hB hC
  · refine ⟨⟨fun _ => ?_, fun _ => ⟨_, rfl⟩⟩, fun b hb => by simp at hb⟩
    rcases hA with rfl | h
    · exact Or.inl rfl
    · exact Or.inl h
  · refine ⟨⟨fun _ => ?_, fun _ => ⟨_, rfl⟩⟩, fun b hb => by simp at hb⟩
    rcases hB with rfl | h
    · exact Or.inr (Or.inl rfl)
    · refine Or.inr (Or.inr ?_)
      rintro ⟨hlen, -⟩
      rw [h] at hlen
      exact absurd hlen (by decide)
  · refine ⟨⟨fun _ => ?_, fun _ => ⟨_, rfl⟩⟩, fun b hb => by simp at hb⟩
    refine Or.inr (Or.inr ?_)
    simp at hC ⊢
    intro hlen
    rcases hC with h6 | hx
    · exact absurd hlen h6
    · exact hx
  · refine ⟨⟨fun he => ?_, fun hr => ?_⟩, fun b hb => ?_⟩
    · obtain ⟨e, he⟩ := he
      simp at he
    · exfalso
      rcases hr with h | h | h
      · exact hA (Or.inr h)
      · exact hB (Or.inl h)
      · simp at hC
        exact h ⟨hC.1, by simpa using hC.2⟩
    · injection hb with hb2
      exact hb2.symm

/-- Instances of C7: the claim's concrete months, each hypothesis
discharged by evaluation. -/
theorem C7_month_validation_witness :
    (∃ e, querySimMonthData "89012345" "2023-10" = .error e) ∧
    (∃ e, querySimMonthData "89012345" "abc123" = .error e) ∧
    (∃ e, querySimMonthData "89012345" "" = .error e) ∧
    [("iccid", Json.str "890"), ("month", Json.str "202310")] =
      [("iccid", .str (jsTrim " 890 ")), ("month", .str (jsTrim " 202310 "))] :=
  ⟨(C7_month_validation "89012345" "2023-10").1.mpr (Or.inr (Or.inr (by decide))),
   (C7_month_validation "89012345" "abc123").1.mpr (Or.inr (Or.inr (by decide))),
   (C7_month_validation "89012345" "").1.mpr (Or.inr (Or.inl rfl)),
   (C7_month_validation " 890 " " 202310 ").2
     [("iccid", Json.str "890"), ("month", Json.str "202310")] rfl⟩

/-- C8: the eSIM batch query validates its input before any request: the
cleaned list (entries trimmed, empty entries discarded) raises the
no-valid-ICCIDs error when empty, raises the bound error when longer than
100, and is sent unchanged otherwise. -/
theorem C8_esim_batch (iccids : List String) :
    ((iccids.map jsTrim).filter (fun s => s ≠ "") = [] →
      queryESimBatch iccids = .error "No valid ICCIDs provided") ∧
    (100 < ((iccids.map jsTrim).filter (fun s => s ≠ "")).length →
      queryESimBatch iccids = .error "Maximum 100 ICCIDs allowed per batch query") ∧
    ((iccids.map jsTrim).filter (fun s => s ≠ "") ≠ [] →
      ((iccids.map jsTrim).filter (fun s => s ≠ "")).length ≤ 100 →
      queryESimBatch iccids = .ok ((iccids.map jsTrim).filter (fun s => s ≠ ""))) := by
  unfold queryESimBatch
  refine ⟨fun h0 => ?_, fun hgt => ?_, fun hne hle => ?_⟩
  · rw [if_pos]
    rw [h0]
    rfl
  · rw [if_neg (by omega), if_pos hgt]
  · rw [if_neg (by simpa [List.length_eq_zero] using hne), if_neg (by omega)]

/-- Instances of C8: an all-blank list, a 101-entry list and a 100-entry
list, each hypothesis discharged by evaluation. -/
theorem C8_esim_batch_witness :
    queryESimBatch [" ", ""] = .error "No valid ICCIDs provided" ∧
    queryESimBatch (List.replicate 101 "89") =
      .error "Maximum 100 ICCIDs allowed per batch query" ∧
    queryESimBatch (List.replicate 100 "89") = .ok (List.replicate 100 "89") :=
  ⟨(C8_esim_batch [" ", ""]).1 (by decide),
   (C8_esim_batch (List.replicate 101 "89")).2.1 (by decide),
   (C8_esim_batch (List.replicate 100 "89")).2.2 (by decide) (by decide)⟩

/-- C9 is a code bug in its compact-variant half: `querySimList` and
`queryEuiccPage` do clamp the outgoing `pageSize` to at most 1000 (a
request with `pageSize = 5000` goes out with 1000), but the
token-conscious `query_sim_list` tool computes `Math.min(pageSize || 10,
50)` and then spreads `...params` after it, so the caller's raw
`pageSize` overwrites the 50-clamp: a call with `pageSize = 100` goes out
with 100, not 50 (only the client's 1000-clamp still applies). -/
theorem C9_pageSize_clamp :
    jsGetProp (.obj (querySimListBody { pageSize := some 5000 })) "pageSize" =
      some (.num 1000) ∧
    queryEuiccPageBody { pageSize := some 5000 } =
      .ok [("pageNum", .num 1), ("pageSize", .num 1000)] ∧
    (simListToolQueryParams [] { pageSize := some 100 }).pageSize = some 100 ∧
    jsGetProp (.obj (simListToolOutgoingBody [] { pageSize := some 100 })) "pageSize" =
      some (.num 100) ∧
    ¬((100 : Int) ≤ 50) :=
  ⟨rfl, rfl, rfl, rfl, by decide⟩

/-- C10: every failure of `makeRequest` reaches the caller as the one
error type `String`, with the message `"Request failed: "` followed by
the message of the inner failure, whichever of the five kinds it was. -/
theorem C10_request_failed_prefix (dm nm : String → String) (r : HttpResponse)
    (e : String) (h : makeRequestResult dm nm r = .error e) :
    ∃ ce, classifyResponse dm nm r = .error ce ∧
      e = "Request failed: " ++ errorMessage ce := by
  unfold makeRequestResult at h
  cases hc : classifyResponse dm nm r with
  | ok v =>
      rw [hc] at h
      exact Except.noConfusion h
  | error ce =>
      rw [hc] at h
      injection h with h2
      exact ⟨ce, rfl, h2.symm⟩

/-- Instance of C10 at a concrete failing response, the hypothesis
discharged by evaluation. -/
theorem C10_request_failed_prefix_witness :
    ∃ ce, classifyResponse (fun _ => "") (fun _ => "") ⟨500, "X", "nonjson"⟩ = .error ce ∧
      "Request failed: HTTP Error: 500 X" = "Request failed: " ++ errorMessage ce :=
  C10_request_failed_prefix (fun _ => "") (fun _ => "") ⟨500, "X", "nonjson"⟩
    "Request failed: HTTP Error: 500 X" rfl

end CMP
